import Mathlib

/-!
Verification of the blockchain-address relationship graph engine of this
repository (`cryptoWalletInvestigationService.ts` and the force-directed
layout in `CryptoWalletGraph.tsx`).

Shallow embedding conventions:
* JavaScript numbers are embedded as `ℚ` (counts as `Nat`); numeric strings
  that the code immediately re-parses with `parseFloat` (balances,
  transaction values, volumes) are embedded as their parsed rational value.
* `async` functions that can fail (`return null` / `throw` caught by a
  caller) are embedded as `Option`-returning functions.
* The external ledger-explorer providers are an explicit environment
  (`Ledger`): for each provider endpoint the environment says whether the
  HTTP call succeeded with usable data, reported the address absent, or
  errored.  All functions of the service are deterministic in this
  environment.
* The response cache (`getCachedData` / `cacheAPIResponse`) only replays
  values previously computed by these same deterministic functions, so it
  is modelled as transparent (a cache hit returns the value the
  re-computation would return).
* Presentation-only fields that no investigated function reads
  (`metadata`, `firstSeen`/`lastSeen` ISO strings, `fee`, `status`,
  `confirmations`, gas fields, output `spent` flags, …) are omitted from
  the embedded records.
-/

namespace CryptoWallet

/-- Risk level enumeration of `CryptoWalletInfo.riskLevel`
(`'critical' | 'high' | 'medium' | 'low' | 'safe'`). -/
inductive RiskLevel where
  | critical
  | high
  | medium
  | low
  | safe
deriving DecidableEq

/-- Canonical wallet record (`CryptoWalletInfo` in
`cryptoWalletInvestigationService.ts`).  `balance`, `totalReceived`,
`totalSent` are numeric strings in the source, embedded via their parsed
value. -/
structure CryptoWalletInfo where
  address : String
  network : String
  balance : ℚ
  balanceUSD : ℚ
  totalReceived : ℚ
  totalSent : ℚ
  transactionCount : Nat
  labels : List String
  isExchange : Bool
  isMixer : Bool
  isRansomware : Bool
  riskScore : ℚ
  riskLevel : RiskLevel
deriving DecidableEq

/-- Structure `TransactionInput` (fields read by the investigated functions). -/
structure TransactionInput where
  address : String
  value : ℚ
deriving DecidableEq

/-- Structure `TransactionOutput` (fields read by the investigated functions). -/
structure TransactionOutput where
  address : String
  value : ℚ
deriving DecidableEq

/-- Canonical transaction record (`CryptoTransaction`).  `timestamp` is the
epoch-millisecond value of the source's ISO string (`new Date(ts).getTime()`
recovers exactly this number); `value` is the numeric string the source
re-parses with `parseFloat`. -/
structure CryptoTransaction where
  hash : String
  timestamp : ℚ
  value : ℚ
  inputs : List TransactionInput
  outputs : List TransactionOutput
deriving DecidableEq

/-- Outcome of one provider HTTP attempt: `success` is `response.ok` with
usable data, `notFound` is an ok-less response for an absent address
(provider 404), `failure` is a thrown network/timeout/5xx error.  The
source code treats `notFound` and `failure` identically (both fall through
to the next provider); keeping them distinct in the environment lets us
state exactly that. -/
inductive ProviderAttempt (α : Type) where
  | success (data : α)
  | notFound
  | failure
deriving DecidableEq

/-- Fields of the `blockchain.info/rawaddr` response read by
`getBitcoinWalletInfo`.  Monetary fields are in satoshi. -/
structure BlockchainInfoRaw where
  final_balance : ℚ
  total_received : ℚ
  total_sent : ℚ
  n_tx : Nat
deriving DecidableEq

/-- Fields of the `api.blockchair.com` dashboard response read by
`getBitcoinWalletInfo` (the `addrData.address` object).  Monetary fields
are in satoshi. -/
structure BlockchairRaw where
  balance : ℚ
  balance_usd : ℚ
  received : ℚ
  spent : ℚ
  transaction_count : Nat
deriving DecidableEq

/-- Fields of the `api.ethplorer.io/getAddressInfo` response read by
`getEthereumWalletInfo`.  `ethBalance` is `data.ETH?.balance` (absent ⇒
defaulted to `0` by `|| 0`), `rate` is `data.ETH?.price?.rate`. -/
structure EthplorerRaw where
  ethBalance : Option ℚ
  rate : Option ℚ
  countTxs : Nat
deriving DecidableEq

/-- The external ledger-explorer environment: one field per provider
endpoint the service calls.  `btcTxs a limit` is the
`blockchain.info/rawaddr/a?limit=limit` transaction-list call used by
`getBitcoinWalletTransactions`, already normalised to canonical
transactions (`some txs` = `response.ok` with `data.txs` mapped, `none` =
non-ok response or thrown error). -/
structure Ledger where
  blockchainInfo : String → ProviderAttempt BlockchainInfoRaw
  blockchair : String → ProviderAttempt BlockchairRaw
  ethplorer : String → ProviderAttempt EthplorerRaw
  btcTxs : String → Nat → Option (List CryptoTransaction)

/-- Normalisation of a `blockchain.info` success into `CryptoWalletInfo`
(the object literal at the first `return` of `getBitcoinWalletInfo`):
satoshi fields divided by `100000000`, and the risk/label fields are the
literal constants of the source. -/
def mkBlockchainInfoWallet (address : String) (d : BlockchainInfoRaw) :
    CryptoWalletInfo where
  address := address
  network := "bitcoin"
  balance := d.final_balance / 100000000
  balanceUSD := 0
  totalReceived := d.total_received / 100000000
  totalSent := d.total_sent / 100000000
  transactionCount := d.n_tx
  labels := []
  isExchange := false
  isMixer := false
  isRansomware := false
  riskScore := 0
  riskLevel := RiskLevel.safe

/-- Normalisation of a blockchair success into `CryptoWalletInfo` (the
object literal at the second `return` of `getBitcoinWalletInfo`). -/
def mkBlockchairWallet (address : String) (d : BlockchairRaw) :
    CryptoWalletInfo where
  address := address
  network := "bitcoin"
  balance := d.balance / 100000000
  balanceUSD := d.balance_usd
  totalReceived := d.received / 100000000
  totalSent := d.spent / 100000000
  transactionCount := d.transaction_count
  labels := []
  isExchange := false
  isMixer := false
  isRansomware := false
  riskScore := 0
  riskLevel := RiskLevel.safe

/-- Normalisation of an ethplorer success into `CryptoWalletInfo` (the
object literal of `getEthereumWalletInfo`). -/
def mkEthplorerWallet (address : String) (d : EthplorerRaw) :
    CryptoWalletInfo where
  address := address
  network := "ethereum"
  balance := d.ethBalance.getD 0
  balanceUSD :=
    match d.rate with
    | some r => d.ethBalance.getD 0 * r
    | none => 0
  totalReceived := 0
  totalSent := 0
  transactionCount := d.countTxs
  labels := []
  isExchange := false
  isMixer := false
  isRansomware := false
  riskScore := 0
  riskLevel := RiskLevel.safe

/-- Source `getBitcoinWalletInfo`: try `blockchain.info`, on any non-success fall
through to blockchair, on any non-success throw (⇒ `none` once caught by
`getWalletInfo`). -/
def getBitcoinWalletInfo (L : Ledger) (address : String) :
    Option CryptoWalletInfo :=
  match L.blockchainInfo address with
  | ProviderAttempt.success d => some (mkBlockchainInfoWallet address d)
  | _ =>
    match L.blockchair address with
    | ProviderAttempt.success d => some (mkBlockchairWallet address d)
    | _ => none

/-- Source `getEthereumWalletInfo`: single ethplorer attempt, throw on
non-success. -/
def getEthereumWalletInfo (L : Ledger) (address : String) :
    Option CryptoWalletInfo :=
  match L.ethplorer address with
  | ProviderAttempt.success d => some (mkEthplorerWallet address d)
  | _ => none

/-- Source `getWalletInfo`: dispatch on the network string; any network other
than `"bitcoin"`/`"ethereum"` leaves `walletInfo` at `null`; a throw from
the per-network fetcher is caught and becomes `null`. -/
def getWalletInfo (L : Ledger) (address network : String) :
    Option CryptoWalletInfo :=
  if network = "bitcoin" then getBitcoinWalletInfo L address
  else if network = "ethereum" then getEthereumWalletInfo L address
  else none

/-- Source `getWalletTransactions`: bitcoin uses the `blockchain.info` list call
(`[]` on non-ok/throw), ethereum is unimplemented (`[]`), all other
networks leave the list empty. -/
def getWalletTransactions (L : Ledger) (address network : String)
    (limit : Nat) : List CryptoTransaction :=
  if network = "bitcoin" then (L.btcTxs address limit).getD []
  else []

/-! ### Pure analysis helpers -/

/-- JS average of the parsed transaction values
(`transactions.reduce((sum, tx) => sum + parseFloat(tx.value), 0) /
transactions.length`). -/
def avgTxValue (txs : List CryptoTransaction) : ℚ :=
  (txs.map (fun tx => tx.value)).sum / (txs.length : ℚ)

/-- Source `analyzeBehaviorPattern`. -/
def analyzeBehaviorPattern (txs : List CryptoTransaction) : String :=
  if txs.length = 0 then "No transaction history"
  else
    if 100 < txs.length ∧ 1 < avgTxValue txs then
      "High-frequency, high-value transactions - Possible exchange or business"
    else if 50 < txs.length then "Active wallet with regular transactions"
    else if txs.length < 10 then "Low activity wallet - Possibly dormant or new"
    else "Normal transaction pattern"

/-- Source `analyzeVolume`. -/
def analyzeVolume (txs : List CryptoTransaction) : String :=
  if txs.length = 0 then "No volume data"
  else
    if 1000 < (txs.map (fun tx => tx.value)).sum then
      "Very high volume - Major player or institutional"
    else if 100 < (txs.map (fun tx => tx.value)).sum then
      "High volume - Active trader or business"
    else if 10 < (txs.map (fun tx => tx.value)).sum then
      "Moderate volume - Regular user"
    else "Low volume - Casual user"

/-- The interval list of `analyzeFrequency`: `timestamps[i-1] -
timestamps[i]` for `i = 1 .. n-1` over the epoch-millisecond
timestamps. -/
def txIntervals (txs : List CryptoTransaction) : List ℚ :=
  ((txs.map (fun tx => tx.timestamp)).zip
    (txs.map (fun tx => tx.timestamp)).tail).map (fun p => p.1 - p.2)

/-- The `days` value of `analyzeFrequency`: the average interval
(`intervals.reduce(...) / intervals.length`) converted to days
(`avgInterval / (1000 * 60 * 60 * 24)`). -/
def avgIntervalDays (txs : List CryptoTransaction) : ℚ :=
  ((txIntervals txs).sum / ((txIntervals txs).length : ℚ)) / (1000 * 60 * 60 * 24)

/-- Source `analyzeFrequency`: the `< 1 / < 7 / < 30` day ladder over
`avgIntervalDays`; fewer than two transactions short-circuits to the
insufficient-data string. -/
def analyzeFrequency (txs : List CryptoTransaction) : String :=
  if txs.length < 2 then "Insufficient data"
  else
    if avgIntervalDays txs < 1 then "Multiple transactions per day - Very active"
    else if avgIntervalDays txs < 7 then "Weekly transaction pattern"
    else if avgIntervalDays txs < 30 then "Monthly transaction pattern"
    else "Infrequent transactions"

/-- Source `identifyRiskFactors`. -/
def identifyRiskFactors (wallet : CryptoWalletInfo)
    (txs : List CryptoTransaction) : List String :=
  (if wallet.isRansomware then ["Associated with ransomware activities"] else []) ++
  (if wallet.isMixer then ["Connected to mixing services"] else []) ++
  (if wallet.isExchange then ["Exchange wallet - high volume expected"] else []) ++
  (if 100 < wallet.balance then ["High balance - attractive target"] else []) ++
  (if 100 < txs.length then ["High transaction count"] else [])

/-- Source `generateRecommendations`. -/
def generateRecommendations (wallet : CryptoWalletInfo)
    (txs : List CryptoTransaction) : List String :=
  (if 70 < wallet.riskScore then
    ["High risk - Investigate further before interaction"] else []) ++
  (if wallet.isMixer then
    ["Avoid direct transactions - potential money laundering"] else []) ++
  (if wallet.isRansomware then
    ["Report to authorities - known criminal activity"] else []) ++
  (if txs.length = 0 then ["New or unused wallet - verify legitimacy"] else [])

/-! ### Graph builder (`buildWalletGraph`) -/

/-- Graph node (`GraphNode`; the `metadata` blob is omitted). -/
structure GraphNode where
  id : String
  address : String
  label : String
  type : String
  balance : ℚ
  transactionCount : Nat
  riskScore : ℚ
  riskLevel : RiskLevel
deriving DecidableEq

/-- Graph edge (`GraphEdge`).  `totalVolume` is the numeric string the
source builds with `data.volume.toString()`, embedded as its value;
`direction` is the always-`'bidirectional'` string. -/
structure GraphEdge where
  id : String
  source : String
  target : String
  transactions : Nat
  totalVolume : ℚ
  totalVolumeUSD : ℚ
  firstTx : String
  lastTx : String
  direction : String
deriving DecidableEq

/-- Wallet cluster (`WalletCluster`); `buildWalletGraph` always returns an
empty cluster list, but the field participates in the graph record. -/
structure WalletCluster where
  id : String
  addresses : List String
  entityType : String
  totalBalance : ℚ
  riskLevel : RiskLevel
deriving DecidableEq

/-- Structure `WalletGraph`. -/
structure WalletGraph where
  nodes : List GraphNode
  edges : List GraphEdge
  clusters : List WalletCluster
deriving DecidableEq

/-- The node literal pushed by `buildWalletGraph` for address `addr` with
fetched wallet `w` (both the root push and the counterpart push use this
exact shape). -/
def mkGraphNode (addr : String) (w : CryptoWalletInfo) : GraphNode where
  id := addr
  address := addr
  label := addr.take 8 ++ "..." ++ addr.drop (addr.length - 6)
  type := if w.isExchange then "exchange" else if w.isMixer then "mixer" else "wallet"
  balance := w.balance
  transactionCount := w.transactionCount
  riskScore := w.riskScore
  riskLevel := w.riskLevel

/-- Per-counterpart accumulator of the `connections` map
(`{ count, volume, txHashes }`). -/
structure ConnData where
  count : Nat
  volume : ℚ
  txHashes : List String
deriving DecidableEq

/-- Keep the first occurrence of each element, in encounter order — the
semantics of inserting into the JS `Set` `connectedAddresses` and then
iterating it. -/
def orderedDedup (l : List String) : List String :=
  l.foldl (fun acc a => if a ∈ acc then acc else acc ++ [a]) []

/-- The distinct counterpart addresses of one transaction, in the order
first encountered while scanning `tx.inputs` then `tx.outputs`, excluding
the expanded node's own address and the `'Unknown'` placeholder. -/
def txCounterparts (address : String) (tx : CryptoTransaction) : List String :=
  orderedDedup (((tx.inputs.map (fun i => i.address)) ++
    (tx.outputs.map (fun o => o.address))).filter
      (fun a => a ≠ address ∧ a ≠ "Unknown"))

/-- The `|| { count: 0, volume: 0, txHashes: [] }` default. -/
def connZero : ConnData where
  count := 0
  volume := 0
  txHashes := []

/-- The per-transaction mutation of one connection entry
(`existing.count += 1; existing.volume += parseFloat(tx.value);
existing.txHashes.push(tx.hash)`). -/
def connUpd (tx : CryptoTransaction) (d : ConnData) : ConnData where
  count := d.count + 1
  volume := d.volume + tx.value
  txHashes := d.txHashes ++ [tx.hash]

/-- Operation `connections.set(connAddr, existing)` on the insertion-ordered JS
`Map`: an existing key is updated in place, a new key is appended. -/
def connSet (m : List (String × ConnData)) (k : String)
    (tx : CryptoTransaction) : List (String × ConnData) :=
  if k ∈ m.map Prod.fst then
    m.map (fun p => if p.1 = k then (p.1, connUpd tx p.2) else p)
  else m ++ [(k, connUpd tx connZero)]

/-- The `connections` map after scanning all fetched transactions of the
expanded node (the double `for`/`forEach` loop of `buildWalletGraph`). -/
def collectConnections (address : String) (txs : List CryptoTransaction) :
    List (String × ConnData) :=
  txs.foldl (fun m tx => (txCounterparts address tx).foldl
    (fun m c => connSet m c tx) m) []

/-- First-match association lookup (`connections.get`). -/
def connLookup : List (String × ConnData) → String → Option ConnData
  | [], _ => none
  | p :: m, k => if p.1 = k then some p.2 else connLookup m k

/-- The transactions of the expanded node `address` that reference `k` as
a counterpart — the transactions whose scan touches the connection entry
for `k`. -/
def txsInvolving (address k : String) (txs : List CryptoTransaction) :
    List CryptoTransaction :=
  txs.filter (fun tx => k ∈ txCounterparts address tx)

/-- Specification of the `connections` map after scanning `done`: every
key's count is the number of scanned transactions involving it and its
volume is the sum of their values (an absent key has zero of both). -/
def ConnsOk (address : String) (done : List CryptoTransaction)
    (m : List (String × ConnData)) : Prop :=
  ∀ k : String,
    ((connLookup m k).getD connZero).count = (txsInvolving address k done).length ∧
    ((connLookup m k).getD connZero).volume =
      ((txsInvolving address k done).map (fun tx => tx.value)).sum

/-- The edge literal pushed for expanded node `address` and counterpart
`connAddr` with accumulated data `d`. -/
def mkEdge (address connAddr : String) (d : ConnData) : GraphEdge where
  id := address ++ "-" ++ connAddr
  source := address
  target := connAddr
  transactions := d.count
  totalVolume := d.volume
  totalVolumeUSD := 0
  firstTx := d.txHashes.head?.getD ""
  lastTx := d.txHashes.getLast?.getD ""
  direction := "bidirectional"

/-- Mutable state of one `buildWalletGraph` call: the `nodes` and `edges`
arrays, the `visited` set (insertion-ordered, queried only for
membership), and the FIFO `queue`. -/
structure BuildState where
  nodes : List GraphNode
  edges : List GraphEdge
  visited : List String
  queue : List (String × Nat)
deriving DecidableEq

/-- The body of the counterpart `for`-loop of `buildWalletGraph`: maybe
add the counterpart as a node (only if unvisited and its wallet fetch
succeeds, in which case it is also enqueued at `level+1`), then push the
edge unconditionally. -/
def processConn (L : Ledger) (network address : String) (level : Nat)
    (st : BuildState) (c : String × ConnData) : BuildState :=
  let st' :=
    if c.1 ∈ st.visited then st
    else
      match getWalletInfo L c.1 network with
      | some w =>
        { st with
            nodes := st.nodes ++ [mkGraphNode c.1 w]
            visited := st.visited ++ [c.1]
            queue := st.queue ++ [(c.1, level + 1)] }
      | none => st
  { st' with edges := st'.edges ++ [mkEdge address c.1 c.2] }

/-- One dequeue-and-expand step plus the loop: `while (queue.length > 0 &&
nodes.length < maxNodes)`.  `fuel` only bounds the recursion; every lemma
below holds for every fuel value, and the concrete evaluations use a fuel
large enough for the loop to reach its natural exit (see
`buildFuel`). -/
def bfsLoop (L : Ledger) (network : String) (depth maxNodes : Nat) :
    Nat → BuildState → BuildState
  | 0, st => st
  | fuel + 1, st =>
    match st.queue with
    | [] => st
    | (address, level) :: rest =>
      if st.nodes.length < maxNodes then
        let st₁ : BuildState := { st with queue := rest }
        if depth ≤ level then bfsLoop L network depth maxNodes fuel st₁
        else
          let txs := getWalletTransactions L address network 20
          let conns := (collectConnections address txs).take 10
          bfsLoop L network depth maxNodes fuel
            (conns.foldl (processConn L network address level) st₁)
      else st

/-- Fuel that dominates the number of loop iterations: each iteration
dequeues one entry, entries are enqueued only together with a node push,
and the loop only runs while `nodes.length < maxNodes` (each expansion
adds at most 10 nodes), so at most `maxNodes + 11` iterations happen. -/
def buildFuel (maxNodes : Nat) : Nat := maxNodes + 11

/-- Initial state of `buildWalletGraph`: the root is enqueued
unconditionally; it becomes a node (and visited) only if its wallet fetch
succeeds. -/
def initialBuildState (L : Ledger) (rootAddress network : String) :
    BuildState :=
  match getWalletInfo L rootAddress network with
  | some w =>
    { nodes := [mkGraphNode rootAddress w]
      edges := []
      visited := [rootAddress]
      queue := [(rootAddress, 0)] }
  | none =>
    { nodes := [], edges := [], visited := [], queue := [(rootAddress, 0)] }

/-- Source `buildWalletGraph(rootAddress, network, depth, maxNodes)`. -/
def buildWalletGraph (L : Ledger) (rootAddress network : String)
    (depth maxNodes : Nat) : WalletGraph :=
  let final := bfsLoop L network depth maxNodes (buildFuel maxNodes)
    (initialBuildState L rootAddress network)
  { nodes := final.nodes, edges := final.edges, clusters := [] }

/-- Invariant of every state the BFS loop reaches.  `visited` tracks the
node addresses exactly; queued addresses are visited (or the root when its
wallet fetch failed, since the root is enqueued unconditionally); an edge
is pushed only for a freshly dequeued source, so ordered endpoint pairs
never repeat; edge endpoints are visited except the two documented leaks
(a source that is the fetch-failed root, a target whose wallet fetch
failed); and every edge carries the per-pair accumulated statistics of the
source's fetched transactions. -/
structure BuildInv (L : Ledger) (root network : String)
    (st : BuildState) : Prop where
  visited_eq : st.visited = st.nodes.map (fun n => n.address)
  queue_nodup : (st.queue.map Prod.fst).Nodup
  queue_ok : ∀ b ∈ st.queue.map Prod.fst,
    b ∈ st.visited ∨ (b = root ∧ getWalletInfo L root network = none)
  edges_nodup : (st.edges.map (fun e => (e.source, e.target))).Nodup
  edge_src_notin_queue : ∀ e ∈ st.edges, e.source ∉ st.queue.map Prod.fst
  edge_src_ok : ∀ e ∈ st.edges,
    e.source ∈ st.visited ∨ (e.source = root ∧ getWalletInfo L root network = none)
  edge_tgt_ok : ∀ e ∈ st.edges,
    e.target ∈ st.visited ∨ getWalletInfo L e.target network = none
  edge_data : ∀ e ∈ st.edges,
    e.transactions = (txsInvolving e.source e.target
      (getWalletTransactions L e.source network 20)).length ∧
    e.totalVolume = ((txsInvolving e.source e.target
      (getWalletTransactions L e.source network 20)).map (fun tx => tx.value)).sum

/-- Invariant `BuildInv` strengthened for the middle of one node expansion:
`a` is the dequeued address and `cs` the counterpart entries still to be
processed. -/
structure ExpandInv (L : Ledger) (root network a : String)
    (cs : List (String × ConnData)) (st : BuildState) : Prop where
  visited_eq : st.visited = st.nodes.map (fun n => n.address)
  queue_nodup : (st.queue.map Prod.fst).Nodup
  queue_ok : ∀ b ∈ st.queue.map Prod.fst,
    b ∈ st.visited ∨ (b = root ∧ getWalletInfo L root network = none)
  a_notin_queue : a ∉ st.queue.map Prod.fst
  a_ok : a ∈ st.visited ∨ (a = root ∧ getWalletInfo L root network = none)
  edges_nodup : (st.edges.map (fun e => (e.source, e.target))).Nodup
  edge_new_fresh : ∀ e ∈ st.edges, e.source = a → e.target ∉ cs.map Prod.fst
  edge_src_notin_queue : ∀ e ∈ st.edges, e.source ∉ st.queue.map Prod.fst
  edge_src_ok : ∀ e ∈ st.edges,
    e.source ∈ st.visited ∨ (e.source = root ∧ getWalletInfo L root network = none)
  edge_tgt_ok : ∀ e ∈ st.edges,
    e.target ∈ st.visited ∨ getWalletInfo L e.target network = none
  edge_data : ∀ e ∈ st.edges,
    e.transactions = (txsInvolving e.source e.target
      (getWalletTransactions L e.source network 20)).length ∧
    e.totalVolume = ((txsInvolving e.source e.target
      (getWalletTransactions L e.source network 20)).map (fun tx => tx.value)).sum

/-- The counterpart-entry facts the expansion lemma needs about each entry
`p` of the (truncated) `connections` list of the node `a` being expanded:
the key is a genuine counterpart (≠ `a`) and the accumulated data matches
`a`'s fetched transactions. -/
def ConnEntryOk (L : Ledger) (network a : String)
    (p : String × ConnData) : Prop :=
  p.1 ≠ a ∧
  p.2.count = (txsInvolving a p.1 (getWalletTransactions L a network 20)).length ∧
  p.2.volume = ((txsInvolving a p.1
    (getWalletTransactions L a network 20)).map (fun tx => tx.value)).sum

/-! ### Investigation orchestrator (`investigateWallet`) -/

/-- Structure `ConnectedWallet`. -/
structure ConnectedWallet where
  address : String
  relationship : String
  transactionCount : Nat
  totalVolume : ℚ
  totalVolumeUSD : ℚ
  firstInteraction : String
  lastInteraction : String
  riskScore : ℚ
deriving DecidableEq

/-- The `threatIntel` record of `CryptoInvestigationResult`. -/
structure ThreatIntel where
  isKnownThreat : Bool
  threatType : List String
  associatedCampaigns : List String
  sanctioned : Bool
  abuseReports : Nat
  details : List String
deriving DecidableEq

/-- The `analysis` record of `CryptoInvestigationResult`. -/
structure WalletAnalysis where
  behaviorPattern : String
  volumeAnalysis : String
  frequencyAnalysis : String
  riskFactors : List String
  recommendations : List String
deriving DecidableEq

/-- Structure `CryptoInvestigationResult`. -/
structure CryptoInvestigationResult where
  wallet : CryptoWalletInfo
  transactions : List CryptoTransaction
  connectedWallets : List ConnectedWallet
  graph : WalletGraph
  threatIntel : ThreatIntel
  analysis : WalletAnalysis
deriving DecidableEq

/-- The options record of `investigateWallet`, with the source's
defaults. -/
structure InvestigateOptions where
  fetchTransactions : Bool := true
  buildGraph : Bool := true
  graphDepth : Nat := 2
deriving DecidableEq

/-- Source `investigateWallet`: root wallet fetch (a `null` wallet throws, and
the surrounding `catch` turns any throw into a `null` result), optional
transaction fetch (page size 50), optional graph build (`maxNodes` fixed
at 30), connected-wallet extraction from the graph's edges, constant
threat-intel block, and the behavioural analysis helpers. -/
def investigateWallet (L : Ledger) (address network : String)
    (options : InvestigateOptions) : Option CryptoInvestigationResult :=
  match getWalletInfo L address network with
  | none => none
  | some wallet =>
    let transactions :=
      if options.fetchTransactions then getWalletTransactions L address network 50
      else []
    let graph :=
      if options.buildGraph then
        buildWalletGraph L address network options.graphDepth 30
      else { nodes := [], edges := [], clusters := [] }
    let connectedWallets : List ConnectedWallet := graph.edges.map (fun edge =>
      { address := if edge.target = address then edge.source else edge.target
        relationship := "both"
        transactionCount := edge.transactions
        totalVolume := edge.totalVolume
        totalVolumeUSD := edge.totalVolumeUSD
        firstInteraction := edge.firstTx
        lastInteraction := edge.lastTx
        riskScore :=
          ((graph.nodes.find? (fun n => n.id = edge.target)).map
            (fun n => n.riskScore)).getD 0 })
    some
      { wallet := wallet
        transactions := transactions
        connectedWallets := connectedWallets
        graph := graph
        threatIntel :=
          { isKnownThreat := wallet.isRansomware || wallet.isMixer
            threatType :=
              (if wallet.isRansomware then ["Ransomware"] else []) ++
              (if wallet.isMixer then ["Mixer"] else [])
            associatedCampaigns := []
            sanctioned := false
            abuseReports := 0
            details := [] }
        analysis :=
          { behaviorPattern := analyzeBehaviorPattern transactions
            volumeAnalysis := analyzeVolume transactions
            frequencyAnalysis := analyzeFrequency transactions
            riskFactors := identifyRiskFactors wallet transactions
            recommendations := generateRecommendations wallet transactions } }

/-! ### Force-directed layout (`CryptoWalletGraph.tsx`) -/

/-- Numeric primitives of the layout code (`Math.sqrt`, `Math.cos`,
`Math.sin`, `Math.PI`).  The simulation is parametric in them; nothing
else (in particular no randomness source) feeds the computation. -/
structure FloatOps where
  sqrt : ℚ → ℚ
  cos : ℚ → ℚ
  sin : ℚ → ℚ
  pi : ℚ

/-- A node of the layout simulation (`NodeWithPosition`), restricted to
the fields the simulation reads: the id it matches edges on and the
position/velocity it updates. -/
structure NodePos where
  id : String
  x : ℚ
  y : ℚ
  vx : ℚ
  vy : ℚ
deriving DecidableEq

/-- Circular initial placement: node `index` of `n` goes to angle
`(index / n) · 2π` on a radius-200 circle around the 800×600 canvas
center, with zero velocity. -/
def initNodePositions (ops : FloatOps) (nodes : List GraphNode) :
    List NodePos :=
  nodes.enum.map (fun p =>
    let angle := ((p.1 : ℚ) / (nodes.length : ℚ)) * ops.pi * 2
    { id := p.2.id
      x := 400 + 200 * ops.cos angle
      y := 300 + 200 * ops.sin angle
      vx := 0
      vy := 0 })

/-- JS `Math.sqrt(dx*dx + dy*dy) || 1`: a zero distance is replaced by
`1`. -/
def distOr1 (ops : FloatOps) (dx dy : ℚ) : ℚ :=
  let d := ops.sqrt (dx * dx + dy * dy)
  if d = 0 then 1 else d

/-- The body of the per-node loop of `simulateForces` for index `i`: sum
repulsion from every other node (constant 5000), spring attraction along
incident edges (constant 0.01), center gravity toward (400, 300)
(constant 0.01), then damp the velocity by 0.3 and move.  The update is
in place, so later indices see the already-moved positions of earlier
indices (the JS code mutates the shared node objects). -/
def stepNode (ops : FloatOps) (edges : List GraphEdge)
    (ns : List NodePos) (i : Nat) : List NodePos :=
  match ns.get? i with
  | none => ns
  | some nodeA =>
    let rep := (List.range ns.length).foldl (fun (f : ℚ × ℚ) j =>
      if j = i then f
      else
        match ns.get? j with
        | none => f
        | some nodeB =>
          let dx := nodeA.x - nodeB.x
          let dy := nodeA.y - nodeB.y
          let dist := distOr1 ops dx dy
          let force := 5000 / (dist * dist)
          (f.1 + dx / dist * force, f.2 + dy / dist * force)) (0, 0)
    let att := edges.foldl (fun (f : ℚ × ℚ) e =>
      let f₁ :=
        if e.source = nodeA.id then
          match ns.find? (fun n => n.id = e.target) with
          | some t =>
            (f.1 + (t.x - nodeA.x) * (1 / 100), f.2 + (t.y - nodeA.y) * (1 / 100))
          | none => f
        else f
      if e.target = nodeA.id then
        match ns.find? (fun n => n.id = e.source) with
        | some s =>
          (f₁.1 + (s.x - nodeA.x) * (1 / 100), f₁.2 + (s.y - nodeA.y) * (1 / 100))
        | none => f₁
      else f₁) rep
    let fx := att.1 + (400 - nodeA.x) * (1 / 100)
    let fy := att.2 + (300 - nodeA.y) * (1 / 100)
    let vx := (nodeA.vx + fx) * (3 / 10)
    let vy := (nodeA.vy + fy) * (3 / 10)
    ns.set i { nodeA with vx := vx, vy := vy, x := nodeA.x + vx, y := nodeA.y + vy }

/-- One `simulateForces` call: the in-place `for i` sweep over all
nodes. -/
def simulateForcesStep (ops : FloatOps) (edges : List GraphEdge)
    (ns : List NodePos) : List NodePos :=
  (List.range ns.length).foldl (stepNode ops edges) ns

/-- Iterating the sweep. -/
def iterateSweep (ops : FloatOps) (edges : List GraphEdge) :
    Nat → List NodePos → List NodePos
  | 0, ns => ns
  | n + 1, ns => iterateSweep ops edges n (simulateForcesStep ops edges ns)

/-- The whole layout run of `CryptoWalletGraph`: circular initialisation
from the graph's node order, then `iterations` frames of
`simulateForces` (the component uses 300). -/
def simulateLayout (ops : FloatOps) (g : WalletGraph) (iterations : Nat) :
    List NodePos :=
  iterateSweep ops g.edges iterations (initNodePositions ops g.nodes)

/-! ### Concrete environments used by the counterexamples and witnesses -/

/-- A minimal successful `blockchain.info` payload. -/
def walletRawZero : BlockchainInfoRaw where
  final_balance := 0
  total_received := 0
  total_sent := 0
  n_tx := 1

/-- A transaction of value 1 from `src` to the addresses `outs`. -/
def mkTx (h src : String) (outs : List String) : CryptoTransaction where
  hash := h
  timestamp := 0
  value := 1
  inputs := [{ address := src, value := 1 }]
  outputs := outs.map (fun o => { address := o, value := 1 })

/-- Environment for the `maxNodes` overshoot: root `A` and counterparts
`B`, `C` all resolve; `A` has one transaction paying both `B` and `C`. -/
def ledgerOvershoot : Ledger where
  blockchainInfo := fun a =>
    if a = "A" ∨ a = "B" ∨ a = "C" then ProviderAttempt.success walletRawZero
    else ProviderAttempt.failure
  blockchair := fun _ => ProviderAttempt.failure
  ethplorer := fun _ => ProviderAttempt.failure
  btcTxs := fun a _ =>
    if a = "A" then some [mkTx "t1" "A" ["B", "C"]] else some []

/-- Environment for the dangling edge: root `A` resolves, `A` pays `B`,
but every provider fails for `B`. -/
def ledgerDangling : Ledger where
  blockchainInfo := fun a =>
    if a = "A" then ProviderAttempt.success walletRawZero
    else ProviderAttempt.failure
  blockchair := fun _ => ProviderAttempt.failure
  ethplorer := fun _ => ProviderAttempt.failure
  btcTxs := fun a _ =>
    if a = "A" then some [mkTx "t1" "A" ["B"]] else some []

/-- Environment for the failing root: every provider fails for `A`'s
wallet, but `A`'s transaction list resolves and pays `B`, whose wallet
resolves. -/
def ledgerRootless : Ledger where
  blockchainInfo := fun a =>
    if a = "B" then ProviderAttempt.success walletRawZero
    else ProviderAttempt.failure
  blockchair := fun _ => ProviderAttempt.failure
  ethplorer := fun _ => ProviderAttempt.failure
  btcTxs := fun a _ =>
    if a = "A" then some [mkTx "t1" "A" ["B"]] else some []

/-- Environment for the duplicated unordered pair: `A` and `B` resolve,
`A`'s transactions pay `B`, and `B`'s transactions pay `A`. -/
def ledgerMutual : Ledger where
  blockchainInfo := fun a =>
    if a = "A" ∨ a = "B" then ProviderAttempt.success walletRawZero
    else ProviderAttempt.failure
  blockchair := fun _ => ProviderAttempt.failure
  ethplorer := fun _ => ProviderAttempt.failure
  btcTxs := fun a _ =>
    if a = "A" then some [mkTx "t1" "A" ["B"]]
    else if a = "B" then some [mkTx "t2" "B" ["A"]]
    else some []

/-- Environment where every provider reports every address absent. -/
def ledgerAllNotFound : Ledger where
  blockchainInfo := fun _ => ProviderAttempt.notFound
  blockchair := fun _ => ProviderAttempt.notFound
  ethplorer := fun _ => ProviderAttempt.notFound
  btcTxs := fun _ _ => none

/-- Environment where every provider attempt errors. -/
def ledgerAllErrored : Ledger where
  blockchainInfo := fun _ => ProviderAttempt.failure
  blockchair := fun _ => ProviderAttempt.failure
  ethplorer := fun _ => ProviderAttempt.failure
  btcTxs := fun _ _ => none

/-- Environment where the root wallet resolves but every transaction-list
fetch errors. -/
def ledgerTxFail : Ledger where
  blockchainInfo := fun a =>
    if a = "A" then ProviderAttempt.success walletRawZero
    else ProviderAttempt.failure
  blockchair := fun _ => ProviderAttempt.failure
  ethplorer := fun _ => ProviderAttempt.failure
  btcTxs := fun _ _ => none

instance : Inhabited GraphEdge :=
  ⟨mkEdge "" "" connZero⟩

/-- Numeric primitives used to instantiate the layout theorems on a
concrete input. -/
def opsSample : FloatOps where
  sqrt := fun q => q
  cos := fun _ => 1
  sin := fun _ => 0
  pi := 3

/-- A concrete layout node. -/
def layoutProbeNode : GraphNode :=
  mkGraphNode "A" (mkBlockchainInfoWallet "A" walletRawZero)

/-- A concrete graph without clusters. -/
def layoutGraphA : WalletGraph where
  nodes := [layoutProbeNode]
  edges := []
  clusters := []

/-- The same nodes and edges as `layoutGraphA`, but a different cluster
list. -/
def layoutGraphB : WalletGraph where
  nodes := [layoutProbeNode]
  edges := []
  clusters := [{ id := "c"
                 addresses := []
                 entityType := "unknown"
                 totalBalance := 0
                 riskLevel := RiskLevel.safe }]

/-! ### Lemmas: one counterpart step -/

/-- Lemma: `processConn` does exactly one of three things, and in every case it
appends exactly the one edge. -/
theorem processConn_spec (L : Ledger) (network address : String)
    (level : Nat) (st : BuildState) (c : String × ConnData) :
    (c.1 ∈ st.visited ∧
      processConn L network address level st c =
        { st with edges := st.edges ++ [mkEdge address c.1 c.2] }) ∨
    (c.1 ∉ st.visited ∧ ∃ w, getWalletInfo L c.1 network = some w ∧
      processConn L network address level st c =
        { nodes := st.nodes ++ [mkGraphNode c.1 w]
          edges := st.edges ++ [mkEdge address c.1 c.2]
          visited := st.visited ++ [c.1]
          queue := st.queue ++ [(c.1, level + 1)] }) ∨
    (c.1 ∉ st.visited ∧ getWalletInfo L c.1 network = none ∧
      processConn L network address level st c =
        { st with edges := st.edges ++ [mkEdge address c.1 c.2] }) := by
  by_cases h : c.1 ∈ st.visited
  · exact Or.inl ⟨h, by simp [processConn, h]⟩
  · cases hw : getWalletInfo L c.1 network with
    | some w => exact Or.inr (Or.inl ⟨h, w, rfl, by simp [processConn, h, hw]⟩)
    | none => exact Or.inr (Or.inr ⟨h, rfl, by simp [processConn, h, hw]⟩)

theorem processConn_edges (L : Ledger) (network address : String)
    (level : Nat) (st : BuildState) (c : String × ConnData) :
    (processConn L network address level st c).edges =
      st.edges ++ [mkEdge address c.1 c.2] := by
  rcases processConn_spec L network address level st c with
    ⟨-, h⟩ | ⟨-, w, -, h⟩ | ⟨-, -, h⟩ <;> rw [h]

theorem foldl_processConn_edges (L : Ledger) (network address : String)
    (level : Nat) (cs : List (String × ConnData)) (st : BuildState) :
    (cs.foldl (processConn L network address level) st).edges =
      st.edges ++ cs.map (fun c => mkEdge address c.1 c.2) := by
  induction cs generalizing st with
  | nil => simp
  | cons c cs ih =>
    rw [List.foldl_cons, ih, List.map_cons, processConn_edges]
    simp

theorem foldl_processConn_nodes_length (L : Ledger)
    (network address : String) (level : Nat)
    (cs : List (String × ConnData)) (st : BuildState) :
    (cs.foldl (processConn L network address level) st).nodes.length ≤
      st.nodes.length + cs.length := by
  induction cs generalizing st with
  | nil => simp
  | cons c cs ih =>
    rw [List.foldl_cons]
    refine (ih _).trans ?_
    rcases processConn_spec L network address level st c with
      ⟨-, h⟩ | ⟨-, w, -, h⟩ | ⟨-, -, h⟩ <;> (rw [h]; simp; try omega)

/-! ### Lemmas: node-count bound -/

/-- Any state within the budget-plus-overshoot bound stays within it: the
loop guard admits at most `maxNodes - 1` nodes into an expansion, and an
expansion adds at most the 10 taken counterparts. -/
theorem bfsLoop_nodes_le (L : Ledger) (network : String)
    (depth maxNodes fuel : Nat) (st : BuildState)
    (h : st.nodes.length ≤ maxNodes + 9) :
    (bfsLoop L network depth maxNodes fuel st).nodes.length ≤ maxNodes + 9 := by
  induction fuel generalizing st with
  | zero => simpa [bfsLoop] using h
  | succ fuel ih =>
    simp only [bfsLoop]
    split
    · exact h
    · split
      · rename_i hn
        split
        · exact ih _ h
        · apply ih
          refine le_trans (le_trans (foldl_processConn_nodes_length _ _ _ _ _ _)
            (Nat.add_le_add_left (List.length_take_le _ _) _)) ?_
          show st.nodes.length + 10 ≤ maxNodes + 9
          omega
      · exact h

/-! ### Lemmas: ordered dedup and counterparts -/

theorem mem_orderedDedup_foldl (l : List String) :
    ∀ (acc : List String) (x : String),
      x ∈ l.foldl (fun acc a => if a ∈ acc then acc else acc ++ [a]) acc ↔
        x ∈ acc ∨ x ∈ l := by
  induction l with
  | nil => simp
  | cons a l ih =>
    intro acc x
    rw [List.foldl_cons, ih]
    by_cases h : a ∈ acc
    · rw [if_pos h]
      simp only [List.mem_cons]
      constructor
      · rintro (hx | hx)
        · exact Or.inl hx
        · exact Or.inr (Or.inr hx)
      · rintro (hx | rfl | hx)
        · exact Or.inl hx
        · exact Or.inl h
        · exact Or.inr hx
    · rw [if_neg h]
      simp only [List.mem_append, List.mem_singleton, List.mem_cons]
      tauto

theorem nodup_orderedDedup_foldl (l : List String) :
    ∀ acc : List String, acc.Nodup →
      (l.foldl (fun acc a => if a ∈ acc then acc else acc ++ [a]) acc).Nodup := by
  induction l with
  | nil => exact fun acc h => h
  | cons a l ih =>
    intro acc hacc
    rw [List.foldl_cons]
    apply ih
    by_cases h : a ∈ acc
    · rwa [if_pos h]
    · rw [if_neg h]
      exact List.Nodup.append hacc (List.nodup_singleton a)
        (fun x hx hxa => h ((List.mem_singleton.mp hxa) ▸ hx))

theorem mem_orderedDedup (l : List String) (x : String) :
    x ∈ orderedDedup l ↔ x ∈ l := by
  unfold orderedDedup
  rw [mem_orderedDedup_foldl]
  simp

theorem orderedDedup_nodup (l : List String) : (orderedDedup l).Nodup :=
  nodup_orderedDedup_foldl l [] List.nodup_nil

theorem txCounterparts_nodup (address : String) (tx : CryptoTransaction) :
    (txCounterparts address tx).Nodup :=
  orderedDedup_nodup _

theorem txCounterparts_ne (address : String) (tx : CryptoTransaction)
    (k : String) (h : k ∈ txCounterparts address tx) :
    k ≠ address ∧ k ≠ "Unknown" := by
  unfold txCounterparts at h
  rw [mem_orderedDedup] at h
  exact of_decide_eq_true (List.mem_filter.mp h).2

/-! ### Lemmas: the connections map -/

theorem connLookup_append (m m' : List (String × ConnData)) (j : String) :
    connLookup (m ++ m') j =
      match connLookup m j with
      | some d => some d
      | none => connLookup m' j := by
  induction m with
  | nil => simp [connLookup]
  | cons p m ih =>
    by_cases h : p.1 = j <;> simp [connLookup, h, ih]

theorem connLookup_eq_none (m : List (String × ConnData)) (k : String)
    (h : k ∉ m.map Prod.fst) : connLookup m k = none := by
  induction m with
  | nil => rfl
  | cons p m ih =>
    simp only [List.map_cons, List.mem_cons] at h
    push_neg at h
    simp only [connLookup, ih h.2, if_neg (Ne.symm h.1)]

theorem connLookup_ne_none (m : List (String × ConnData)) (k : String)
    (h : k ∈ m.map Prod.fst) : connLookup m k ≠ none := by
  induction m with
  | nil => simp at h
  | cons p m ih =>
    simp only [List.map_cons, List.mem_cons] at h
    by_cases hp : p.1 = k
    · simp [connLookup, hp]
    · rcases h with h | h
      · exact absurd h.symm hp
      · simp only [connLookup, if_neg hp]
        exact ih h

theorem connLookup_map_upd (m : List (String × ConnData)) (k j : String)
    (tx : CryptoTransaction) :
    connLookup (m.map (fun p => if p.1 = k then (p.1, connUpd tx p.2) else p)) j =
      if j = k then (connLookup m k).map (connUpd tx) else connLookup m j := by
  induction m with
  | nil => by_cases h : j = k <;> simp [connLookup, h]
  | cons p m ih =>
    by_cases hpk : p.1 = k
    · by_cases hjk : j = k
      · subst hjk
        simp [List.map_cons, connLookup, if_pos hpk, hpk]
      · have hpj : p.1 ≠ j := fun hp => hjk (hp ▸ hpk)
        simp [List.map_cons, connLookup, if_pos hpk, if_neg hpj, if_neg hjk, ih, hjk]
    · by_cases hjk : j = k
      · have hpj : p.1 ≠ j := fun hp => hpk (hjk ▸ hp)
        subst hjk
        simp [List.map_cons, connLookup, if_neg hpk, if_neg hpj, ih]
      · by_cases hpj : p.1 = j
        · simp [List.map_cons, connLookup, if_neg hpk, if_pos hpj, if_neg hjk]
        · simp [List.map_cons, connLookup, if_neg hpk, if_neg hpj, if_neg hjk, ih, hjk]

theorem connLookup_connSet (m : List (String × ConnData)) (k : String)
    (tx : CryptoTransaction) (j : String) :
    connLookup (connSet m k tx) j =
      if j = k then some (connUpd tx ((connLookup m k).getD connZero))
      else connLookup m j := by
  unfold connSet
  by_cases hk : k ∈ m.map Prod.fst
  · rw [if_pos hk, connLookup_map_upd]
    by_cases hjk : j = k
    · rw [if_pos hjk, if_pos hjk]
      cases hl : connLookup m k with
      | some d => rfl
      | none => exact absurd hl (connLookup_ne_none m k hk)
    · rw [if_neg hjk, if_neg hjk]
  · rw [if_neg hk, connLookup_append, connLookup_eq_none m k hk]
    by_cases hjk : j = k
    · subst hjk
      rw [connLookup_eq_none m j hk]
      simp [connLookup]
    · rw [if_neg hjk]
      cases hl : connLookup m j with
      | some d => rfl
      | none => simp [connLookup, Ne.symm hjk]

theorem connSet_fst (m : List (String × ConnData)) (k : String)
    (tx : CryptoTransaction) :
    (connSet m k tx).map Prod.fst =
      if k ∈ m.map Prod.fst then m.map Prod.fst else m.map Prod.fst ++ [k] := by
  unfold connSet
  split
  · rw [List.map_map]
    have hf : (Prod.fst ∘ fun p : String × ConnData =>
        if p.1 = k then (p.1, connUpd tx p.2) else p) = Prod.fst := by
      funext p
      by_cases h : p.1 = k <;> simp [h]
    rw [hf]
  · simp

theorem connSet_fst_nodup (m : List (String × ConnData)) (k : String)
    (tx : CryptoTransaction) (h : (m.map Prod.fst).Nodup) :
    ((connSet m k tx).map Prod.fst).Nodup := by
  rw [connSet_fst]
  split
  · exact h
  · rename_i hk
    exact List.Nodup.append h (List.nodup_singleton k)
      (fun x hx hxk => hk ((List.mem_singleton.mp hxk) ▸ hx))

theorem connSet_fst_mem (m : List (String × ConnData)) (k : String)
    (tx : CryptoTransaction) (x : String)
    (h : x ∈ (connSet m k tx).map Prod.fst) :
    x ∈ m.map Prod.fst ∨ x = k := by
  rw [connSet_fst] at h
  revert h
  split
  · exact fun h => Or.inl h
  · intro h
    rcases List.mem_append.mp h with h | h
    · exact Or.inl h
    · exact Or.inr (List.mem_singleton.mp h)

theorem foldl_connSet_fst_nodup (tx : CryptoTransaction) (cs : List String) :
    ∀ m : List (String × ConnData), (m.map Prod.fst).Nodup →
      (((cs.foldl (fun m c => connSet m c tx) m)).map Prod.fst).Nodup := by
  induction cs with
  | nil => exact fun m h => h
  | cons c cs ih =>
    intro m h
    rw [List.foldl_cons]
    exact ih _ (connSet_fst_nodup m c tx h)

theorem foldl_connSet_fst_mem (tx : CryptoTransaction) (cs : List String) :
    ∀ (m : List (String × ConnData)) (x : String),
      x ∈ ((cs.foldl (fun m c => connSet m c tx) m)).map Prod.fst →
      x ∈ m.map Prod.fst ∨ x ∈ cs := by
  induction cs with
  | nil => exact fun m x h => Or.inl h
  | cons c cs ih =>
    intro m x h
    rw [List.foldl_cons] at h
    rcases ih _ x h with h | h
    · rcases connSet_fst_mem m c tx x h with h | h
      · exact Or.inl h
      · exact Or.inr (h ▸ List.mem_cons_self c cs)
    · exact Or.inr (List.mem_cons_of_mem c h)

theorem collectConnections_fst_nodup (address : String)
    (txs : List CryptoTransaction) :
    ((collectConnections address txs).map Prod.fst).Nodup := by
  unfold collectConnections
  have : ∀ (rem : List CryptoTransaction) (m : List (String × ConnData)),
      (m.map Prod.fst).Nodup →
      ((rem.foldl (fun m tx => (txCounterparts address tx).foldl
        (fun m c => connSet m c tx) m) m).map Prod.fst).Nodup := by
    intro rem
    induction rem with
    | nil => exact fun m h => h
    | cons tx rem ih =>
      intro m h
      rw [List.foldl_cons]
      exact ih _ (foldl_connSet_fst_nodup tx _ m h)
  exact this txs [] (by simp)

theorem collectConnections_fst_mem (address : String)
    (txs : List CryptoTransaction) (x : String)
    (h : x ∈ (collectConnections address txs).map Prod.fst) :
    ∃ tx ∈ txs, x ∈ txCounterparts address tx := by
  unfold collectConnections at h
  have key : ∀ (rem : List CryptoTransaction) (m : List (String × ConnData)),
      x ∈ ((rem.foldl (fun m tx => (txCounterparts address tx).foldl
        (fun m c => connSet m c tx) m) m).map Prod.fst) →
      x ∈ m.map Prod.fst ∨ ∃ tx ∈ rem, x ∈ txCounterparts address tx := by
    intro rem
    induction rem with
    | nil => exact fun m h => Or.inl h
    | cons tx rem ih =>
      intro m hm
      rw [List.foldl_cons] at hm
      rcases ih _ hm with hh | ⟨tx', htx', hc⟩
      · rcases foldl_connSet_fst_mem tx _ m x hh with hh | hh
        · exact Or.inl hh
        · exact Or.inr ⟨tx, List.mem_cons_self tx rem, hh⟩
      · exact Or.inr ⟨tx', List.mem_cons_of_mem tx htx', hc⟩
  rcases key txs [] h with hh | hh
  · simp at hh
  · exact hh

theorem connLookup_foldl_connSet (tx : CryptoTransaction) (cs : List String)
    (hcs : cs.Nodup) :
    ∀ (m : List (String × ConnData)) (j : String),
      connLookup (cs.foldl (fun m c => connSet m c tx) m) j =
        if j ∈ cs then some (connUpd tx ((connLookup m j).getD connZero))
        else connLookup m j := by
  induction cs with
  | nil => intro m j; simp
  | cons c cs ih =>
    intro m j
    obtain ⟨hc, hcs'⟩ := List.nodup_cons.mp hcs
    rw [List.foldl_cons, ih hcs']
    by_cases hj : j ∈ cs
    · have hjc : j ≠ c := fun h => hc (h ▸ hj)
      rw [if_pos hj, if_pos (List.mem_cons_of_mem c hj), connLookup_connSet,
        if_neg hjc]
    · rw [if_neg hj, connLookup_connSet]
      by_cases hjc : j = c
      · rw [if_pos hjc, if_pos (by simp [hjc]), hjc]
      · rw [if_neg hjc, if_neg (by simp [hjc, hj])]

theorem ConnsOk_nil (address : String) : ConnsOk address [] [] := by
  intro k
  simp [connLookup, txsInvolving, connZero]

theorem ConnsOk_step (address : String) (done : List CryptoTransaction)
    (m : List (String × ConnData)) (tx : CryptoTransaction)
    (h : ConnsOk address done m) :
    ConnsOk address (done ++ [tx])
      ((txCounterparts address tx).foldl (fun m c => connSet m c tx) m) := by
  intro k
  rw [connLookup_foldl_connSet tx _ (txCounterparts_nodup address tx) m k]
  by_cases hk : k ∈ txCounterparts address tx
  · rw [if_pos hk]
    have hinv : txsInvolving address k (done ++ [tx]) =
        txsInvolving address k done ++ [tx] := by
      unfold txsInvolving
      rw [List.filter_append]
      simp [hk]
    rcases h k with ⟨hc, hv⟩
    rw [hinv]
    constructor
    · simp only [Option.getD_some, connUpd, hc, List.length_append,
        List.length_singleton]
    · simp only [Option.getD_some, connUpd, hv, List.map_append,
        List.sum_append, List.map_singleton, List.sum_singleton]
  · rw [if_neg hk]
    have hinv : txsInvolving address k (done ++ [tx]) =
        txsInvolving address k done := by
      unfold txsInvolving
      rw [List.filter_append]
      simp [hk]
    rw [hinv]
    exact h k

theorem ConnsOk_foldl (address : String) :
    ∀ (rem done : List CryptoTransaction) (m : List (String × ConnData)),
      ConnsOk address done m →
      ConnsOk address (done ++ rem)
        (rem.foldl (fun m tx => (txCounterparts address tx).foldl
          (fun m c => connSet m c tx) m) m) := by
  intro rem
  induction rem with
  | nil => intro done m h; simpa using h
  | cons tx rem ih =>
    intro done m h
    rw [List.foldl_cons]
    have := ih (done ++ [tx]) _ (ConnsOk_step address done m tx h)
    simpa [List.append_assoc] using this

theorem collectConnections_ok (address : String)
    (txs : List CryptoTransaction) :
    ConnsOk address txs (collectConnections address txs) := by
  have := ConnsOk_foldl address txs [] [] (ConnsOk_nil address)
  simpa [collectConnections] using this

theorem connLookup_of_mem (m : List (String × ConnData))
    (hm : (m.map Prod.fst).Nodup) (k : String) (d : ConnData)
    (h : (k, d) ∈ m) : connLookup m k = some d := by
  induction m with
  | nil => simp at h
  | cons p m ih =>
    rcases List.mem_cons.mp h with h | h
    · rw [← h]
      simp [connLookup]
    · have hk : k ∈ m.map Prod.fst :=
        List.mem_map.mpr ⟨(k, d), h, rfl⟩
      have hp : p.1 ≠ k := by
        intro hpk
        exact (List.nodup_cons.mp (by simpa using hm)).1 (hpk ▸ hk)
      simp only [connLookup, if_neg hp]
      exact ih (List.nodup_cons.mp (by simpa using hm)).2 h

/-- Every entry of the `connections` map of one expansion carries exactly
the count and summed value of the expanded node's fetched transactions
that involve that counterpart. -/
theorem collectConnections_entry (address : String)
    (txs : List CryptoTransaction) (k : String) (d : ConnData)
    (h : (k, d) ∈ collectConnections address txs) :
    d.count = (txsInvolving address k txs).length ∧
    d.volume = ((txsInvolving address k txs).map (fun tx => tx.value)).sum := by
  have hl := connLookup_of_mem _ (collectConnections_fst_nodup address txs) k d h
  have hk := collectConnections_ok address txs k
  rw [hl] at hk
  simpa using hk

/-! ### Lemmas: the BFS invariant -/

theorem foldl_processConn_expandInv (L : Ledger) (root network a : String)
    (level : Nat) :
    ∀ (cs : List (String × ConnData)) (st : BuildState),
      (cs.map Prod.fst).Nodup →
      (∀ p ∈ cs, ConnEntryOk L network a p) →
      ExpandInv L root network a cs st →
      ExpandInv L root network a []
        (cs.foldl (processConn L network a level) st) := by
  intro cs
  induction cs with
  | nil => exact fun st _ _ h => h
  | cons c cs ih =>
    intro st hnodup hok hE
    rw [List.foldl_cons]
    rw [List.map_cons] at hnodup
    have hpair := List.nodup_cons.mp hnodup
    have hcnotin : c.1 ∉ cs.map Prod.fst := hpair.1
    have hcnodup : (cs.map Prod.fst).Nodup := hpair.2
    obtain ⟨hca, hcd1, hcd2⟩ := hok c (List.mem_cons_self c cs)
    apply ih _ hcnodup (fun p hp => hok p (List.mem_cons_of_mem c hp))
    obtain ⟨hv, hqn, hqo, haq, hao, hen, hef, hesq, heso, heto, hed⟩ := hE
    have edges_nodup_new :
        ((st.edges ++ [mkEdge a c.1 c.2]).map
          (fun e => (e.source, e.target))).Nodup := by
      rw [List.map_append]
      refine List.Nodup.append hen (by simp) ?_
      intro x hx hxs
      rw [List.map_singleton, List.mem_singleton] at hxs
      subst hxs
      obtain ⟨e, he, hepair⟩ := List.mem_map.mp hx
      have hsrc : e.source = a := congrArg Prod.fst hepair
      have htgt : e.target = c.1 := congrArg Prod.snd hepair
      exact hef e he hsrc (htgt ▸ (by simp : c.1 ∈ (c :: cs).map Prod.fst))
    have edge_new_fresh_new :
        ∀ e ∈ st.edges ++ [mkEdge a c.1 c.2], e.source = a →
          e.target ∉ cs.map Prod.fst := by
      intro e he hsrc
      rcases List.mem_append.mp he with he | he
      · exact fun hmem => hef e he hsrc (by simp [hmem])
      · rw [List.mem_singleton] at he
        subst he
        exact fun hmem => hcnotin hmem
    rcases processConn_spec L network a level st c with
      ⟨hvis, hst⟩ | ⟨hvis, w, hw, hst⟩ | ⟨hvis, hw, hst⟩
    · -- counterpart already visited: only the edge is pushed
      rw [hst]
      refine ⟨hv, hqn, hqo, haq, hao, edges_nodup_new, edge_new_fresh_new,
        ?_, ?_, ?_, ?_⟩
      · intro e he
        rcases List.mem_append.mp he with he | he
        · exact hesq e he
        · rw [List.mem_singleton] at he
          subst he
          exact haq
      · intro e he
        rcases List.mem_append.mp he with he | he
        · exact heso e he
        · rw [List.mem_singleton] at he
          subst he
          exact hao
      · intro e he
        rcases List.mem_append.mp he with he | he
        · exact heto e he
        · rw [List.mem_singleton] at he
          subst he
          exact Or.inl hvis
      · intro e he
        rcases List.mem_append.mp he with he | he
        · exact hed e he
        · rw [List.mem_singleton] at he
          subst he
          exact ⟨hcd1, hcd2⟩
    · -- unvisited counterpart with resolving wallet: node + enqueue + edge
      rw [hst]
      have hc_notin_queue : c.1 ∉ st.queue.map Prod.fst := by
        intro hc
        rcases hqo _ hc with hmem | ⟨heq, hnone⟩
        · exact hvis hmem
        · rw [heq] at hw
          rw [hw] at hnone
          cases hnone
      refine ⟨?_, ?_, ?_, ?_, ?_, edges_nodup_new, edge_new_fresh_new,
        ?_, ?_, ?_, ?_⟩
      · rw [List.map_append, ← hv]
        rfl
      · rw [List.map_append]
        refine List.Nodup.append hqn (by simp) ?_
        intro x hx hxs
        rw [List.map_singleton, List.mem_singleton] at hxs
        subst hxs
        exact hc_notin_queue hx
      · rw [List.map_append]
        intro b hb
        rcases List.mem_append.mp hb with hb | hb
        · rcases hqo b hb with hmem | hroot
          · exact Or.inl (List.mem_append_left _ hmem)
          · exact Or.inr hroot
        · rw [List.map_singleton, List.mem_singleton] at hb
          subst hb
          exact Or.inl (List.mem_append_right _ (by simp))
      · rw [List.map_append]
        intro hmem
        rcases List.mem_append.mp hmem with hmem | hmem
        · exact haq hmem
        · rw [List.map_singleton, List.mem_singleton] at hmem
          exact hca hmem.symm
      · rcases hao with hmem | hroot
        · exact Or.inl (List.mem_append_left _ hmem)
        · exact Or.inr hroot
      · intro e he
        rw [List.map_append]
        rcases List.mem_append.mp he with he | he
        · intro hmem
          rcases List.mem_append.mp hmem with hmem | hmem
          · exact hesq e he hmem
          · rw [List.map_singleton, List.mem_singleton] at hmem
            rcases heso e he with hsv | ⟨heq, hnone⟩
            · exact hvis (hmem ▸ hsv)
            · rw [hmem] at heq
              rw [heq] at hw
              rw [hw] at hnone
              cases hnone
        · rw [List.mem_singleton] at he
          subst he
          intro hmem
          rcases List.mem_append.mp hmem with hmem | hmem
          · exact haq hmem
          · rw [List.map_singleton, List.mem_singleton] at hmem
            exact hca hmem.symm
      · intro e he
        rcases List.mem_append.mp he with he | he
        · rcases heso e he with hmem | hroot
          · exact Or.inl (List.mem_append_left _ hmem)
          · exact Or.inr hroot
        · rw [List.mem_singleton] at he
          subst he
          rcases hao with hmem | hroot
          · exact Or.inl (List.mem_append_left _ hmem)
          · exact Or.inr hroot
      · intro e he
        rcases List.mem_append.mp he with he | he
        · rcases heto e he with hmem | hnone
          · exact Or.inl (List.mem_append_left _ hmem)
          · exact Or.inr hnone
        · rw [List.mem_singleton] at he
          subst he
          exact Or.inl (List.mem_append_right _ (List.mem_singleton.mpr rfl))
      · intro e he
        rcases List.mem_append.mp he with he | he
        · exact hed e he
        · rw [List.mem_singleton] at he
          subst he
          exact ⟨hcd1, hcd2⟩
    · -- unvisited counterpart whose wallet fetch failed: only the edge
      rw [hst]
      refine ⟨hv, hqn, hqo, haq, hao, edges_nodup_new, edge_new_fresh_new,
        ?_, ?_, ?_, ?_⟩
      · intro e he
        rcases List.mem_append.mp he with he | he
        · exact hesq e he
        · rw [List.mem_singleton] at he
          subst he
          exact haq
      · intro e he
        rcases List.mem_append.mp he with he | he
        · exact heso e he
        · rw [List.mem_singleton] at he
          subst he
          exact hao
      · intro e he
        rcases List.mem_append.mp he with he | he
        · exact heto e he
        · rw [List.mem_singleton] at he
          subst he
          exact Or.inr hw
      · intro e he
        rcases List.mem_append.mp he with he | he
        · exact hed e he
        · rw [List.mem_singleton] at he
          subst he
          exact ⟨hcd1, hcd2⟩

theorem bfsLoop_succ (L : Ledger) (network : String)
    (depth maxNodes fuel : Nat) (st : BuildState) :
    bfsLoop L network depth maxNodes (fuel + 1) st =
      match st.queue with
      | [] => st
      | (address, level) :: rest =>
        if st.nodes.length < maxNodes then
          if depth ≤ level then
            bfsLoop L network depth maxNodes fuel { st with queue := rest }
          else
            bfsLoop L network depth maxNodes fuel
              (((collectConnections address
                  (getWalletTransactions L address network 20)).take 10).foldl
                (processConn L network address level) { st with queue := rest })
        else st := rfl

theorem bfsLoop_queue_nil (L : Ledger) (network : String)
    (depth maxNodes fuel : Nat) (st : BuildState) (h : st.queue = []) :
    bfsLoop L network depth maxNodes (fuel + 1) st = st := by
  rw [bfsLoop_succ, h]

theorem bfsLoop_budget_stop (L : Ledger) (network : String)
    (depth maxNodes fuel : Nat) (st : BuildState) (a : String) (l : Nat)
    (rest : List (String × Nat)) (h : st.queue = (a, l) :: rest)
    (hn : ¬st.nodes.length < maxNodes) :
    bfsLoop L network depth maxNodes (fuel + 1) st = st := by
  rw [bfsLoop_succ, h]
  simp [hn]

theorem bfsLoop_depth_skip (L : Ledger) (network : String)
    (depth maxNodes fuel : Nat) (st : BuildState) (a : String) (l : Nat)
    (rest : List (String × Nat)) (h : st.queue = (a, l) :: rest)
    (hn : st.nodes.length < maxNodes) (hd : depth ≤ l) :
    bfsLoop L network depth maxNodes (fuel + 1) st =
      bfsLoop L network depth maxNodes fuel { st with queue := rest } := by
  rw [bfsLoop_succ, h]
  simp [hn, hd]

theorem bfsLoop_expand (L : Ledger) (network : String)
    (depth maxNodes fuel : Nat) (st : BuildState) (a : String) (l : Nat)
    (rest : List (String × Nat)) (h : st.queue = (a, l) :: rest)
    (hn : st.nodes.length < maxNodes) (hd : ¬depth ≤ l) :
    bfsLoop L network depth maxNodes (fuel + 1) st =
      bfsLoop L network depth maxNodes fuel
        (((collectConnections a
            (getWalletTransactions L a network 20)).take 10).foldl
          (processConn L network a l) { st with queue := rest }) := by
  rw [bfsLoop_succ, h]
  simp [hn, hd]

theorem BuildInv.dequeue (L : Ledger) (root network : String)
    (st : BuildState) (hI : BuildInv L root network st) (a : String)
    (l : Nat) (rest : List (String × Nat)) (hq : st.queue = (a, l) :: rest) :
    BuildInv L root network { st with queue := rest } := by
  obtain ⟨hv, hqn, hqo, hen, hesq, heso, heto, hed⟩ := hI
  have hmap : st.queue.map Prod.fst = a :: rest.map Prod.fst := by
    rw [hq]; rfl
  rw [hmap] at hqn
  refine ⟨hv, (List.nodup_cons.mp hqn).2, ?_, hen, ?_, heso, heto, hed⟩
  · intro b hb
    exact hqo b (by rw [hmap]; exact List.mem_cons_of_mem a hb)
  · intro e he hb
    exact hesq e he (by rw [hmap]; exact List.mem_cons_of_mem a hb)

theorem BuildInv.toExpandInv (L : Ledger) (root network : String)
    (st : BuildState) (hI : BuildInv L root network st) (a : String)
    (l : Nat) (rest : List (String × Nat)) (hq : st.queue = (a, l) :: rest)
    (cs : List (String × ConnData)) :
    ExpandInv L root network a cs { st with queue := rest } := by
  obtain ⟨hv, hqn, hqo, hen, hesq, heso, heto, hed⟩ := hI
  have hmap : st.queue.map Prod.fst = a :: rest.map Prod.fst := by
    rw [hq]; rfl
  have hqn' := hqn
  rw [hmap] at hqn'
  obtain ⟨hanotin, hrest⟩ := List.nodup_cons.mp hqn'
  refine ⟨hv, hrest, ?_, hanotin, ?_, hen, ?_, ?_, heso, heto, hed⟩
  · intro b hb
    exact hqo b (by rw [hmap]; exact List.mem_cons_of_mem a hb)
  · exact hqo a (by rw [hmap]; exact List.mem_cons_self _ _)
  · intro e he hsrc _
    exact hesq e he (by rw [hmap, ← hsrc]; exact List.mem_cons_self _ _)
  · intro e he hb
    exact hesq e he (by rw [hmap]; exact List.mem_cons_of_mem a hb)

theorem ExpandInv.toBuildInv (L : Ledger) (root network a : String)
    (st : BuildState) (h : ExpandInv L root network a [] st) :
    BuildInv L root network st := by
  obtain ⟨hv, hqn, hqo, -, -, hen, -, hesq, heso, heto, hed⟩ := h
  exact ⟨hv, hqn, hqo, hen, hesq, heso, heto, hed⟩

theorem conns_take_fst_nodup (L : Ledger) (network a : String) :
    ((((collectConnections a
      (getWalletTransactions L a network 20))).take 10).map Prod.fst).Nodup := by
  rw [List.map_take]
  exact List.Nodup.sublist (List.take_sublist _ _)
    (collectConnections_fst_nodup a _)

theorem conns_take_entry_ok (L : Ledger) (network a : String)
    (p : String × ConnData)
    (hp : p ∈ (collectConnections a
      (getWalletTransactions L a network 20)).take 10) :
    ConnEntryOk L network a p := by
  have hp' := List.take_subset _ _ hp
  obtain ⟨k, d⟩ := p
  have hkey : k ∈ (collectConnections a
      (getWalletTransactions L a network 20)).map Prod.fst :=
    List.mem_map.mpr ⟨(k, d), hp', rfl⟩
  obtain ⟨tx, htx, hc⟩ := collectConnections_fst_mem a _ k hkey
  have hne := txCounterparts_ne a tx k hc
  have hdata := collectConnections_entry a _ k d hp'
  exact ⟨hne.1, hdata.1, hdata.2⟩

theorem bfsLoop_buildInv (L : Ledger) (root network : String)
    (depth maxNodes : Nat) :
    ∀ (fuel : Nat) (st : BuildState), BuildInv L root network st →
      BuildInv L root network (bfsLoop L network depth maxNodes fuel st) := by
  intro fuel
  induction fuel with
  | zero => exact fun st h => h
  | succ fuel ih =>
    intro st hI
    cases hq : st.queue with
    | nil =>
      rw [bfsLoop_queue_nil L network depth maxNodes fuel st hq]
      exact hI
    | cons head rest =>
      obtain ⟨a, l⟩ := head
      by_cases hn : st.nodes.length < maxNodes
      · by_cases hd : depth ≤ l
        · rw [bfsLoop_depth_skip L network depth maxNodes fuel st a l rest hq hn hd]
          exact ih _ (BuildInv.dequeue L root network st hI a l rest hq)
        · rw [bfsLoop_expand L network depth maxNodes fuel st a l rest hq hn hd]
          apply ih
          apply ExpandInv.toBuildInv L root network a
          exact foldl_processConn_expandInv L root network a l _ _
            (conns_take_fst_nodup L network a)
            (fun p hp => conns_take_entry_ok L network a p hp)
            (BuildInv.toExpandInv L root network st hI a l rest hq _)
      · rw [bfsLoop_budget_stop L network depth maxNodes fuel st a l rest hq hn]
        exact hI

theorem initialBuildState_buildInv (L : Ledger) (root network : String) :
    BuildInv L root network (initialBuildState L root network) := by
  unfold initialBuildState
  cases hw : getWalletInfo L root network with
  | some w =>
    refine ⟨rfl, by simp, ?_, by simp, by simp, by simp, by simp, by simp⟩
    intro b hb
    simp only [List.map_cons, List.map_nil, List.mem_singleton] at hb
    subst hb
    exact Or.inl (by simp [mkGraphNode])
  | none =>
    refine ⟨rfl, by simp, ?_, by simp, by simp, by simp, by simp, by simp⟩
    intro b hb
    simp only [List.map_cons, List.map_nil, List.mem_singleton] at hb
    subst hb
    exact Or.inr ⟨rfl, hw⟩

/-- The invariant at the final state of every `buildWalletGraph` run. -/
theorem buildWalletGraph_buildInv (L : Ledger) (root network : String)
    (depth maxNodes : Nat) :
    BuildInv L root network
      (bfsLoop L network depth maxNodes (buildFuel maxNodes)
        (initialBuildState L root network)) :=
  bfsLoop_buildInv L root network depth maxNodes _ _
    (initialBuildState_buildInv L root network)

/-! ### Lemmas: who gets visited -/

theorem processConn_visited_mem (L : Ledger) (network a : String)
    (level : Nat) (st : BuildState) (c : String × ConnData) (b : String)
    (h : b ∈ (processConn L network a level st c).visited) :
    b ∈ st.visited ∨ getWalletInfo L b network ≠ none := by
  rcases processConn_spec L network a level st c with
    ⟨-, hst⟩ | ⟨-, w, hw, hst⟩ | ⟨-, -, hst⟩ <;> rw [hst] at h
  · exact Or.inl h
  · rcases List.mem_append.mp h with h | h
    · exact Or.inl h
    · rw [List.mem_singleton] at h
      subst h
      exact Or.inr (by rw [hw]; exact fun hc => Option.noConfusion hc)
  · exact Or.inl h

theorem foldl_processConn_visited_mem (L : Ledger) (network a : String)
    (level : Nat) :
    ∀ (cs : List (String × ConnData)) (st : BuildState) (b : String),
      b ∈ (cs.foldl (processConn L network a level) st).visited →
      b ∈ st.visited ∨ getWalletInfo L b network ≠ none := by
  intro cs
  induction cs with
  | nil => exact fun st b h => Or.inl h
  | cons c cs ih =>
    intro st b h
    rw [List.foldl_cons] at h
    rcases ih _ b h with h | h
    · exact processConn_visited_mem L network a level st c b h
    · exact Or.inr h

theorem bfsLoop_visited_mem (L : Ledger) (network : String)
    (depth maxNodes : Nat) :
    ∀ (fuel : Nat) (st : BuildState) (b : String),
      b ∈ (bfsLoop L network depth maxNodes fuel st).visited →
      b ∈ st.visited ∨ getWalletInfo L b network ≠ none := by
  intro fuel
  induction fuel with
  | zero => exact fun st b h => Or.inl h
  | succ fuel ih =>
    intro st b h
    cases hq : st.queue with
    | nil =>
      rw [bfsLoop_queue_nil L network depth maxNodes fuel st hq] at h
      exact Or.inl h
    | cons head rest =>
      obtain ⟨a, l⟩ := head
      by_cases hn : st.nodes.length < maxNodes
      · by_cases hd : depth ≤ l
        · rw [bfsLoop_depth_skip L network depth maxNodes fuel st a l rest hq hn hd] at h
          exact ih { st with queue := rest } b h
        · rw [bfsLoop_expand L network depth maxNodes fuel st a l rest hq hn hd] at h
          rcases ih _ b h with h | h
          · exact foldl_processConn_visited_mem L network a l _
              { st with queue := rest } b h
          · exact Or.inr h
      · rw [bfsLoop_budget_stop L network depth maxNodes fuel st a l rest hq hn] at h
        exact Or.inl h

/-! ### Lemmas: the chosen fuel is sufficient -/

theorem foldl_processConn_nodes_mono (L : Ledger) (network a : String)
    (level : Nat) :
    ∀ (cs : List (String × ConnData)) (st : BuildState),
      st.nodes.length ≤
        (cs.foldl (processConn L network a level) st).nodes.length := by
  intro cs
  induction cs with
  | nil => exact fun st => le_refl _
  | cons c cs ih =>
    intro st
    rw [List.foldl_cons]
    refine le_trans ?_ (ih (processConn L network a level st c))
    rcases processConn_spec L network a level st c with
      ⟨-, hst⟩ | ⟨-, w, -, hst⟩ | ⟨-, -, hst⟩ <;> (rw [hst]; try simp)

theorem foldl_processConn_queue_nodes (L : Ledger) (network a : String)
    (level : Nat) :
    ∀ (cs : List (String × ConnData)) (st : BuildState),
      (cs.foldl (processConn L network a level) st).queue.length +
        st.nodes.length =
      st.queue.length +
        (cs.foldl (processConn L network a level) st).nodes.length := by
  intro cs
  induction cs with
  | nil => exact fun st => rfl
  | cons c cs ih =>
    intro st
    rw [List.foldl_cons]
    have h := ih (processConn L network a level st c)
    rcases processConn_spec L network a level st c with
      ⟨-, hst⟩ | ⟨-, w, -, hst⟩ | ⟨-, -, hst⟩ <;>
      (rw [hst] at h ⊢;
        simp only [List.length_append, List.length_singleton] at h ⊢;
        omega)

theorem bfsLoop_fuel_converged (L : Ledger) (network : String)
    (depth maxNodes : Nat) :
    ∀ (fuel : Nat) (st : BuildState),
      st.queue.length + (maxNodes + 9 - st.nodes.length) ≤ fuel →
      bfsLoop L network depth maxNodes (fuel + 1) st =
        bfsLoop L network depth maxNodes fuel st := by
  intro fuel
  induction fuel with
  | zero =>
    intro st h
    have hq : st.queue = [] := by
      cases hq : st.queue with
      | nil => rfl
      | cons a t =>
        rw [hq] at h
        simp at h
    rw [bfsLoop_queue_nil L network depth maxNodes 0 st hq]
    rfl
  | succ fuel ih =>
    intro st h
    cases hq : st.queue with
    | nil =>
      rw [bfsLoop_queue_nil L network depth maxNodes (fuel + 1) st hq,
        bfsLoop_queue_nil L network depth maxNodes fuel st hq]
    | cons head rest =>
      obtain ⟨a, l⟩ := head
      have hql : st.queue.length = rest.length + 1 := by rw [hq]; rfl
      by_cases hn : st.nodes.length < maxNodes
      · by_cases hd : depth ≤ l
        · rw [bfsLoop_depth_skip L network depth maxNodes (fuel + 1) st a l rest hq hn hd,
            bfsLoop_depth_skip L network depth maxNodes fuel st a l rest hq hn hd]
          apply ih
          have hqs : ({ st with queue := rest } : BuildState).queue.length =
            rest.length := rfl
          have hns : ({ st with queue := rest } : BuildState).nodes.length =
            st.nodes.length := rfl
          omega
        · rw [bfsLoop_expand L network depth maxNodes (fuel + 1) st a l rest hq hn hd,
            bfsLoop_expand L network depth maxNodes fuel st a l rest hq hn hd]
          apply ih
          have hbal := foldl_processConn_queue_nodes L network a l
            ((collectConnections a (getWalletTransactions L a network 20)).take 10)
            { st with queue := rest }
          have hadd := foldl_processConn_nodes_length L network a l
            ((collectConnections a (getWalletTransactions L a network 20)).take 10)
            { st with queue := rest }
          have hmono := foldl_processConn_nodes_mono L network a l
            ((collectConnections a (getWalletTransactions L a network 20)).take 10)
            { st with queue := rest }
          have hlen : ((collectConnections a
              (getWalletTransactions L a network 20)).take 10).length ≤ 10 :=
            List.length_take_le _ _
          have hqs : ({ st with queue := rest } : BuildState).queue.length =
            rest.length := rfl
          have hns : ({ st with queue := rest } : BuildState).nodes.length =
            st.nodes.length := rfl
          omega
      · rw [bfsLoop_budget_stop L network depth maxNodes (fuel + 1) st a l rest hq hn,
          bfsLoop_budget_stop L network depth maxNodes fuel st a l rest hq hn]

theorem bfsLoop_fuel_ge (L : Ledger) (network : String)
    (depth maxNodes : Nat) :
    ∀ (k fuel : Nat) (st : BuildState),
      st.queue.length + (maxNodes + 9 - st.nodes.length) ≤ fuel →
      bfsLoop L network depth maxNodes (fuel + k) st =
        bfsLoop L network depth maxNodes fuel st := by
  intro k
  induction k with
  | zero => exact fun fuel st _ => rfl
  | succ k ih =>
    intro fuel st h
    have h1 : st.queue.length + (maxNodes + 9 - st.nodes.length) ≤ fuel + k :=
      le_trans h (Nat.le_add_right _ _)
    calc bfsLoop L network depth maxNodes (fuel + (k + 1)) st
        = bfsLoop L network depth maxNodes ((fuel + k) + 1) st := rfl
      _ = bfsLoop L network depth maxNodes (fuel + k) st :=
          bfsLoop_fuel_converged L network depth maxNodes (fuel + k) st h1
      _ = bfsLoop L network depth maxNodes fuel st := ih fuel st h

/-- The fuel `buildFuel maxNodes` is sufficient: giving the loop any
additional fuel never changes the result, so the fueled recursion agrees
with the source's unbounded `while` loop on every input. -/
theorem buildWalletGraph_fuel_sufficient (L : Ledger)
    (root network : String) (depth maxNodes k : Nat) :
    bfsLoop L network depth maxNodes (buildFuel maxNodes + k)
      (initialBuildState L root network) =
    bfsLoop L network depth maxNodes (buildFuel maxNodes)
      (initialBuildState L root network) := by
  apply bfsLoop_fuel_ge
  have hq : (initialBuildState L root network).queue.length = 1 := by
    unfold initialBuildState
    cases getWalletInfo L root network <;> rfl
  unfold buildFuel
  omega

/-! ### Lemmas: fetched wallets -/

theorem getBitcoinWalletInfo_fields (L : Ledger) (a : String)
    (w : CryptoWalletInfo) (h : getBitcoinWalletInfo L a = some w) :
    w.riskScore = 0 ∧ w.riskLevel = RiskLevel.safe ∧ w.labels = [] ∧
    w.isExchange = false ∧ w.isMixer = false ∧ w.isRansomware = false := by
  unfold getBitcoinWalletInfo at h
  cases hbi : L.blockchainInfo a with
  | success d =>
    rw [hbi] at h
    injection h with h2
    subst h2
    exact ⟨rfl, rfl, rfl, rfl, rfl, rfl⟩
  | notFound =>
    rw [hbi] at h
    cases hbc : L.blockchair a with
    | success d =>
      rw [hbc] at h
      injection h with h2
      subst h2
      exact ⟨rfl, rfl, rfl, rfl, rfl, rfl⟩
    | notFound =>
      rw [hbc] at h
      exact Option.noConfusion h
    | failure =>
      rw [hbc] at h
      exact Option.noConfusion h
  | failure =>
    rw [hbi] at h
    cases hbc : L.blockchair a with
    | success d =>
      rw [hbc] at h
      injection h with h2
      subst h2
      exact ⟨rfl, rfl, rfl, rfl, rfl, rfl⟩
    | notFound =>
      rw [hbc] at h
      exact Option.noConfusion h
    | failure =>
      rw [hbc] at h
      exact Option.noConfusion h

theorem getEthereumWalletInfo_fields (L : Ledger) (a : String)
    (w : CryptoWalletInfo) (h : getEthereumWalletInfo L a = some w) :
    w.riskScore = 0 ∧ w.riskLevel = RiskLevel.safe ∧ w.labels = [] ∧
    w.isExchange = false ∧ w.isMixer = false ∧ w.isRansomware = false := by
  unfold getEthereumWalletInfo at h
  cases hep : L.ethplorer a with
  | success d =>
    rw [hep] at h
    injection h with h2
    subst h2
    exact ⟨rfl, rfl, rfl, rfl, rfl, rfl⟩
  | notFound =>
    rw [hep] at h
    exact Option.noConfusion h
  | failure =>
    rw [hep] at h
    exact Option.noConfusion h

theorem getWalletInfo_fields_aux (L : Ledger) (a n : String)
    (w : CryptoWalletInfo) (h : getWalletInfo L a n = some w) :
    w.riskScore = 0 ∧ w.riskLevel = RiskLevel.safe ∧ w.labels = [] ∧
    w.isExchange = false ∧ w.isMixer = false ∧ w.isRansomware = false := by
  unfold getWalletInfo at h
  by_cases hb : n = "bitcoin"
  · rw [if_pos hb] at h
    exact getBitcoinWalletInfo_fields L a w h
  · rw [if_neg hb] at h
    by_cases he : n = "ethereum"
    · rw [if_pos he] at h
      exact getEthereumWalletInfo_fields L a w h
    · rw [if_neg he] at h
      exact Option.noConfusion h

/-! ### Claim theorems -/

/-- C1, counterexample: with `maxNodes = 2` the build returns a graph
with 3 nodes.  The `while` guard `nodes.length < maxNodes` is only
checked between expansions, and the counterpart loop adds nodes without
re-checking the budget, so the claimed invariant `|nodes| ≤ maxNodes`
fails: root `A` (1 node) is expanded against counterparts `B` and `C`,
both of which are added. -/
theorem buildWalletGraph_overshoots_maxNodes :
    (buildWalletGraph ledgerOvershoot "A" "bitcoin" 1 2).nodes.length = 3 ∧
    2 < (buildWalletGraph ledgerOvershoot "A" "bitcoin" 1 2).nodes.length :=
  ⟨by decide, by decide⟩

/-- C1 (amended): for every graph returned by `buildWalletGraph`, the
number of nodes is at most `maxNodes + 9`: an expansion is entered with at
most `maxNodes - 1` nodes and adds at most the per-node counterpart budget
of 10 new nodes. -/
theorem buildWalletGraph_nodes_le_maxNodes_add_nine (L : Ledger)
    (root network : String) (depth maxNodes : Nat) :
    (buildWalletGraph L root network depth maxNodes).nodes.length ≤
      maxNodes + 9 := by
  have h0 : (initialBuildState L root network).nodes.length ≤ maxNodes + 9 := by
    unfold initialBuildState
    cases getWalletInfo L root network <;> (simp; try omega)
  exact bfsLoop_nodes_le L network depth maxNodes (buildFuel maxNodes) _ h0

/-- C2, counterexample: root `A` resolves and pays `B`, but `B`'s wallet
fetch fails on every provider; the edge `A → B` is still pushed
(`edges.push` is unconditional), so the returned graph has an edge whose
target `"B"` is not an address of any node. -/
theorem buildWalletGraph_dangling_edge :
    ((buildWalletGraph ledgerDangling "A" "bitcoin" 1 50).edges.map
      (fun e => (e.source, e.target))) = [("A", "B")] ∧
    ((buildWalletGraph ledgerDangling "A" "bitcoin" 1 50).nodes.map
      (fun n => n.address)) = ["A"] ∧
    getWalletInfo ledgerDangling "B" "bitcoin" = none :=
  ⟨by decide, by decide, by decide⟩

/-- C2 (amended): when the root wallet fetch succeeds, every edge's
source is the address of a node of the returned graph, and every edge's
target is either the address of a node or an address whose wallet-info
fetch failed — precisely the counterpart case the claim says is never
recorded. -/
theorem buildWalletGraph_edge_endpoints (L : Ledger) (root network : String)
    (depth maxNodes : Nat) (hr : getWalletInfo L root network ≠ none) :
    ∀ e ∈ (buildWalletGraph L root network depth maxNodes).edges,
      e.source ∈ (buildWalletGraph L root network depth maxNodes).nodes.map
        (fun n => n.address) ∧
      (e.target ∈ (buildWalletGraph L root network depth maxNodes).nodes.map
        (fun n => n.address) ∨ getWalletInfo L e.target network = none) := by
  intro e he
  have hI := buildWalletGraph_buildInv L root network depth maxNodes
  have he' : e ∈ (bfsLoop L network depth maxNodes (buildFuel maxNodes)
      (initialBuildState L root network)).edges := he
  constructor
  · rcases hI.edge_src_ok e he' with hmem | ⟨-, hnone⟩
    · show e.source ∈ (bfsLoop L network depth maxNodes (buildFuel maxNodes)
        (initialBuildState L root network)).nodes.map (fun n => n.address)
      rw [← hI.visited_eq]
      exact hmem
    · exact absurd hnone hr
  · rcases hI.edge_tgt_ok e he' with hmem | hnone
    · refine Or.inl ?_
      show e.target ∈ (bfsLoop L network depth maxNodes (buildFuel maxNodes)
        (initialBuildState L root network)).nodes.map (fun n => n.address)
      rw [← hI.visited_eq]
      exact hmem
    · exact Or.inr hnone

/-- First element of a nonempty list is a member (used to instantiate the
edge-quantified theorems at the concrete first edge). -/
theorem headI_mem {α : Type} [Inhabited α] (l : List α) (h : l ≠ []) :
    l.headI ∈ l := by
  cases l with
  | nil => exact absurd rfl h
  | cons a t => exact List.mem_cons_self a t

/-- C2, witness for the amended theorem at a concrete input. -/
theorem buildWalletGraph_edge_endpoints_witness :
    getWalletInfo ledgerDangling "A" "bitcoin" ≠ none ∧
    ((buildWalletGraph ledgerDangling "A" "bitcoin" 1 50).edges.headI.source ∈
      (buildWalletGraph ledgerDangling "A" "bitcoin" 1 50).nodes.map
        (fun n => n.address) ∧
    ((buildWalletGraph ledgerDangling "A" "bitcoin" 1 50).edges.headI.target ∈
      (buildWalletGraph ledgerDangling "A" "bitcoin" 1 50).nodes.map
        (fun n => n.address) ∨
      getWalletInfo ledgerDangling
        (buildWalletGraph ledgerDangling
          "A" "bitcoin" 1 50).edges.headI.target "bitcoin" = none)) :=
  ⟨by decide,
    buildWalletGraph_edge_endpoints ledgerDangling "A" "bitcoin" 1 50
      (by decide) _ (headI_mem _ (by decide))⟩

/-- C3, counterexample: the root wallet fetch fails on every provider,
yet `buildWalletGraph` does not fail: it still fetches the root's
transactions, explores the counterpart `B`, and returns a graph with node
`B` and edge `A → B`. -/
theorem buildWalletGraph_rootless_still_explores :
    getWalletInfo ledgerRootless "A" "bitcoin" = none ∧
    ((buildWalletGraph ledgerRootless "A" "bitcoin" 1 50).nodes.map
      (fun n => n.address)) = ["B"] ∧
    ((buildWalletGraph ledgerRootless "A" "bitcoin" 1 50).edges.map
      (fun e => (e.source, e.target))) = [("A", "B")] :=
  ⟨by decide, by decide, by decide⟩

/-- C3 (amended): when the root wallet fetch fails, `buildWalletGraph`
does not fail and may still explore — it merely never contains the root
as a node; root-fetch failure is fatal only one level up, in
`investigateWallet`, which returns `null`. -/
theorem buildWalletGraph_root_failure_behavior (L : Ledger)
    (root network : String) (depth maxNodes : Nat)
    (opts : InvestigateOptions)
    (h : getWalletInfo L root network = none) :
    root ∉ (buildWalletGraph L root network depth maxNodes).nodes.map
      (fun n => n.address) ∧
    investigateWallet L root network opts = none := by
  constructor
  · intro hmem
    have hI := buildWalletGraph_buildInv L root network depth maxNodes
    have hmem' : root ∈ (bfsLoop L network depth maxNodes
        (buildFuel maxNodes) (initialBuildState L root network)).visited := by
      rw [hI.visited_eq]
      exact hmem
    rcases bfsLoop_visited_mem L network depth maxNodes _ _ root hmem' with
      hv | hv
    · unfold initialBuildState at hv
      rw [h] at hv
      simp at hv
    · exact hv h
  · unfold investigateWallet
    rw [h]

/-- C3, witness for the amended theorem at a concrete input. -/
theorem buildWalletGraph_root_failure_behavior_witness :
    "A" ∉ (buildWalletGraph ledgerRootless "A" "bitcoin" 1 50).nodes.map
      (fun n => n.address) ∧
    investigateWallet ledgerRootless "A" "bitcoin" {} = none :=
  buildWalletGraph_root_failure_behavior ledgerRootless "A" "bitcoin" 1 50 {}
    (by decide)

/-- C4, counterexample: `A` is expanded against `B` and later `B` against
`A`; the build returns two edges, `A → B` and `B → A`, for the single
unordered pair. -/
theorem buildWalletGraph_two_edges_same_unordered_pair :
    ((buildWalletGraph ledgerMutual "A" "bitcoin" 2 50).edges.map
      (fun e => (e.source, e.target))) = [("A", "B"), ("B", "A")] ∧
    2 ≤ (buildWalletGraph ledgerMutual "A" "bitcoin" 2 50).edges.length :=
  ⟨by decide, by decide⟩

/-- C4 (amended): at most one edge per ordered `(source, target)` pair,
and repeated transactions between the pair within one node's expansion
accumulate into that single edge's transaction count and summed
volume; expanding `A` against `B` and later `B` against `A` yields two
distinct (opposite) ordered pairs for the unordered pair. -/
theorem buildWalletGraph_one_edge_per_ordered_pair (L : Ledger)
    (root network : String) (depth maxNodes : Nat) :
    ((buildWalletGraph L root network depth maxNodes).edges.map
      (fun e => (e.source, e.target))).Nodup ∧
    ∀ e ∈ (buildWalletGraph L root network depth maxNodes).edges,
      e.transactions = (txsInvolving e.source e.target
        (getWalletTransactions L e.source network 20)).length ∧
      e.totalVolume = ((txsInvolving e.source e.target
        (getWalletTransactions L e.source network 20)).map
          (fun tx => tx.value)).sum := by
  have hI := buildWalletGraph_buildInv L root network depth maxNodes
  exact ⟨hI.edges_nodup, hI.edge_data⟩

/-- C4, witness for the amended theorem at a concrete input. -/
theorem buildWalletGraph_one_edge_per_ordered_pair_witness :
    ((buildWalletGraph ledgerMutual "A" "bitcoin" 2 50).edges.map
      (fun e => (e.source, e.target))).Nodup ∧
    (buildWalletGraph ledgerMutual "A" "bitcoin" 2 50).edges.headI.transactions =
      (txsInvolving
        (buildWalletGraph ledgerMutual "A" "bitcoin" 2 50).edges.headI.source
        (buildWalletGraph ledgerMutual "A" "bitcoin" 2 50).edges.headI.target
        (getWalletTransactions ledgerMutual
          (buildWalletGraph ledgerMutual
            "A" "bitcoin" 2 50).edges.headI.source "bitcoin" 20)).length :=
  ⟨(buildWalletGraph_one_edge_per_ordered_pair ledgerMutual "A" "bitcoin" 2 50).1,
   ((buildWalletGraph_one_edge_per_ordered_pair ledgerMutual "A" "bitcoin" 2 50).2
     _ (headI_mem _ (by decide))).1⟩

/-- C5, counterexample: an environment where every provider reports the
address absent and an environment where every provider attempt errors are
distinct inputs, yet `investigateWallet` returns the same bare `null` for
both — there is no `NotFoundError`/`ProviderError` (or any error object)
in the result, so the two terminal failures are not distinguished. -/
theorem investigateWallet_failure_kinds_indistinguishable :
    ledgerAllNotFound.blockchainInfo "A" = ProviderAttempt.notFound ∧
    ledgerAllErrored.blockchainInfo "A" = ProviderAttempt.failure ∧
    investigateWallet ledgerAllNotFound "A" "bitcoin" {} = none ∧
    investigateWallet ledgerAllErrored "A" "bitcoin" {} = none :=
  ⟨rfl, rfl, by decide, by decide⟩

/-- C5 (amended): when the root wallet lookup fails on every provider —
for any reason — `investigateWallet` returns `null`: a single
undifferentiated terminal failure, never a partially populated result. -/
theorem investigateWallet_root_failure_returns_none (L : Ledger)
    (address network : String) (opts : InvestigateOptions)
    (h : getWalletInfo L address network = none) :
    investigateWallet L address network opts = none := by
  unfold investigateWallet
  rw [h]

/-- C5, witness for the amended theorem at a concrete input. -/
theorem investigateWallet_root_failure_returns_none_witness :
    investigateWallet ledgerAllErrored "A" "bitcoin" {} = none :=
  investigateWallet_root_failure_returns_none ledgerAllErrored "A" "bitcoin"
    {} (by decide)

/-- C6: when the root wallet fetch succeeds and the transaction-list
fetch fails, `investigateWallet` still returns a complete result: the
fetched wallet, an empty transaction list, and populated analysis fields
(the result type carries no error flag at all).  `buildWalletGraph` is
total in the embedding — a graph-build failure cannot occur, so the
graph sub-collection can never be the reason for an abort. -/
theorem investigateWallet_tx_failure_degrades_to_empty (L : Ledger)
    (address : String) (w : CryptoWalletInfo) (opts : InvestigateOptions)
    (hw : getWalletInfo L address "bitcoin" = some w)
    (htx : L.btcTxs address 50 = none)
    (hf : opts.fetchTransactions = true) :
    ∃ r, investigateWallet L address "bitcoin" opts = some r ∧
      r.wallet = w ∧ r.transactions = [] ∧
      r.analysis.behaviorPattern = "No transaction history" ∧
      r.analysis.volumeAnalysis = "No volume data" := by
  have htxs : getWalletTransactions L address "bitcoin" 50 = [] := by
    unfold getWalletTransactions
    rw [if_pos rfl, htx]
    rfl
  unfold investigateWallet
  rw [hw]
  refine ⟨_, rfl, rfl, ?_, ?_, ?_⟩
  · simp [hf, htxs]
  · simp [hf, htxs, analyzeBehaviorPattern]
  · simp [hf, htxs, analyzeVolume]

/-- C6, witness at a concrete input. -/
theorem investigateWallet_tx_failure_degrades_to_empty_witness :
    ∃ r, investigateWallet ledgerTxFail "A" "bitcoin" {} = some r ∧
      r.wallet = mkBlockchainInfoWallet "A" walletRawZero ∧
      r.transactions = [] ∧
      r.analysis.behaviorPattern = "No transaction history" ∧
      r.analysis.volumeAnalysis = "No volume data" :=
  investigateWallet_tx_failure_degrades_to_empty ledgerTxFail "A"
    (mkBlockchainInfoWallet "A" walletRawZero) {} rfl rfl rfl

/-- C7: the repository contains no risk classifier at all — every wallet
`getWalletInfo` successfully returns carries the hardcoded constants
`riskLevel = 'safe'`, `riskScore = 0`, `isRansomware = false`, so no
produced wallet can even satisfy the claim's `isRansomware = true`
premise, and the classification is never `high`/`critical`.  This
contradicts the repository's own documentation of the risk-scoring table
(+50 ransomware, levels 61–80 high / 81–100 critical). -/
theorem getWalletInfo_risk_never_elevated (L : Ledger) (a n : String)
    (w : CryptoWalletInfo) (h : getWalletInfo L a n = some w) :
    w.riskLevel = RiskLevel.safe ∧ w.riskScore = 0 ∧
    w.isRansomware = false := by
  obtain ⟨h1, h2, -, -, -, h6⟩ := getWalletInfo_fields_aux L a n w h
  exact ⟨h2, h1, h6⟩

/-- C7, witness at a concrete input. -/
theorem getWalletInfo_risk_never_elevated_witness :
    (mkBlockchainInfoWallet "A" walletRawZero).riskLevel = RiskLevel.safe ∧
    (mkBlockchainInfoWallet "A" walletRawZero).riskScore = 0 ∧
    (mkBlockchainInfoWallet "A" walletRawZero).isRansomware = false :=
  getWalletInfo_risk_never_elevated ledgerTxFail "A" "bitcoin"
    (mkBlockchainInfoWallet "A" walletRawZero) rfl

/-- C8: the pure analysis helpers implement exactly the specified case
analyses: behavior pattern (empty / `>100 ∧ avg>1` / `>50` / `<10` /
otherwise) and frequency classification (`<2` transactions / average
interval in days `<1` / `<7` / `<30` / otherwise). -/
theorem analysis_helpers_case_analysis (txs : List CryptoTransaction) :
    (txs.length = 0 →
      analyzeBehaviorPattern txs = "No transaction history") ∧
    (¬txs.length = 0 → 100 < txs.length → 1 < avgTxValue txs →
      analyzeBehaviorPattern txs =
        "High-frequency, high-value transactions - Possible exchange or business") ∧
    (¬txs.length = 0 → ¬(100 < txs.length ∧ 1 < avgTxValue txs) →
      50 < txs.length →
      analyzeBehaviorPattern txs = "Active wallet with regular transactions") ∧
    (¬txs.length = 0 → ¬(100 < txs.length ∧ 1 < avgTxValue txs) →
      ¬50 < txs.length → txs.length < 10 →
      analyzeBehaviorPattern txs =
        "Low activity wallet - Possibly dormant or new") ∧
    (¬txs.length = 0 → ¬(100 < txs.length ∧ 1 < avgTxValue txs) →
      ¬50 < txs.length → ¬txs.length < 10 →
      analyzeBehaviorPattern txs = "Normal transaction pattern") ∧
    (txs.length < 2 → analyzeFrequency txs = "Insufficient data") ∧
    (2 ≤ txs.length → avgIntervalDays txs < 1 →
      analyzeFrequency txs = "Multiple transactions per day - Very active") ∧
    (2 ≤ txs.length → ¬avgIntervalDays txs < 1 → avgIntervalDays txs < 7 →
      analyzeFrequency txs = "Weekly transaction pattern") ∧
    (2 ≤ txs.length → ¬avgIntervalDays txs < 1 → ¬avgIntervalDays txs < 7 →
      avgIntervalDays txs < 30 →
      analyzeFrequency txs = "Monthly transaction pattern") ∧
    (2 ≤ txs.length → ¬avgIntervalDays txs < 1 → ¬avgIntervalDays txs < 7 →
      ¬avgIntervalDays txs < 30 →
      analyzeFrequency txs = "Infrequent transactions") := by
  refine ⟨?_, ?_, ?_, ?_, ?_, ?_, ?_, ?_, ?_, ?_⟩
  · intro h0
    unfold analyzeBehaviorPattern
    rw [if_pos h0]
  · intro h0 h1 h2
    unfold analyzeBehaviorPattern
    rw [if_neg h0, if_pos ⟨h1, h2⟩]
  · intro h0 h12 h3
    unfold analyzeBehaviorPattern
    rw [if_neg h0, if_neg h12, if_pos h3]
  · intro h0 h12 h3 h4
    unfold analyzeBehaviorPattern
    rw [if_neg h0, if_neg h12, if_neg h3, if_pos h4]
  · intro h0 h12 h3 h4
    unfold analyzeBehaviorPattern
    rw [if_neg h0, if_neg h12, if_neg h3, if_neg h4]
  · intro h
    unfold analyzeFrequency
    rw [if_pos h]
  · intro h2 hd
    unfold analyzeFrequency
    rw [if_neg (by omega), if_pos hd]
  · intro h2 hd1 hd7
    unfold analyzeFrequency
    rw [if_neg (by omega), if_neg hd1, if_pos hd7]
  · intro h2 hd1 hd7 hd30
    unfold analyzeFrequency
    rw [if_neg (by omega), if_neg hd1, if_neg hd7, if_pos hd30]
  · intro h2 hd1 hd7 hd30
    unfold analyzeFrequency
    rw [if_neg (by omega), if_neg hd1, if_neg hd7, if_neg hd30]

/-- C8, witness: the empty-list case evaluated concretely. -/
theorem analysis_helpers_case_analysis_witness :
    analyzeBehaviorPattern [] = "No transaction history" :=
  (analysis_helpers_case_analysis []).1 rfl

/-- C9: the layout run is a pure function of the graph's node list and
edge list (given the numeric primitives) — two graphs agreeing on nodes
and edges produce identical position lists for any iteration count, so two
runs on the same graph always produce identical positions: there is no
randomness in initialisation or force computation. -/
theorem simulateLayout_deterministic (ops : FloatOps) (g₁ g₂ : WalletGraph)
    (iterations : Nat) (hn : g₁.nodes = g₂.nodes) (he : g₁.edges = g₂.edges) :
    simulateLayout ops g₁ iterations = simulateLayout ops g₂ iterations := by
  unfold simulateLayout
  rw [hn, he]

/-- C9, witness: two concrete graphs differing only in clusters. -/
theorem simulateLayout_deterministic_witness :
    layoutGraphA.nodes = layoutGraphB.nodes ∧
    layoutGraphA.edges = layoutGraphB.edges ∧
    layoutGraphA.clusters ≠ layoutGraphB.clusters ∧
    simulateLayout opsSample layoutGraphA 2 =
      simulateLayout opsSample layoutGraphB 2 :=
  ⟨rfl, rfl, by decide,
    simulateLayout_deterministic opsSample layoutGraphA layoutGraphB 2 rfl rfl⟩

/-- C10: every wallet `getWalletInfo` successfully returns — any
provider, any network — has `riskScore = 0`, `riskLevel = 'safe'`, empty
labels, and `isExchange = isMixer = isRansomware = false`: the risk
fields of fetched wallets are constants. -/
theorem getWalletInfo_risk_fields_constant (L : Ledger) (a n : String)
    (w : CryptoWalletInfo) (h : getWalletInfo L a n = some w) :
    w.riskScore = 0 ∧ w.riskLevel = RiskLevel.safe ∧ w.labels = [] ∧
    w.isExchange = false ∧ w.isMixer = false ∧ w.isRansomware = false :=
  getWalletInfo_fields_aux L a n w h

/-- C10, witness at a concrete input. -/
theorem getWalletInfo_risk_fields_constant_witness :
    (mkBlockchainInfoWallet "B" walletRawZero).riskScore = 0 ∧
    (mkBlockchainInfoWallet "B" walletRawZero).riskLevel = RiskLevel.safe ∧
    (mkBlockchainInfoWallet "B" walletRawZero).labels = [] ∧
    (mkBlockchainInfoWallet "B" walletRawZero).isExchange = false ∧
    (mkBlockchainInfoWallet "B" walletRawZero).isMixer = false ∧
    (mkBlockchainInfoWallet "B" walletRawZero).isRansomware = false :=
  getWalletInfo_risk_fields_constant ledgerOvershoot "B" "bitcoin"
    (mkBlockchainInfoWallet "B" walletRawZero) rfl

end CryptoWallet
